import Mathlib

/-!
Verification of the point-in-time bar retrieval and custom-period aggregation
engine of khQTTools.py (functions khHistory, khKline and their helpers).

Shallow embedding conventions:
* A dataframe row is an association list from column name to an integer value
  (`Row`).  Numeric bar fields (open/high/low/close/volume/amount) are
  modelled exactly over `Int`; float rounding is out of scope.
* Timestamps are minutes since an epoch (`Int`).  A calendar date is the
  floor-division of the timestamp by 1440 (minutes per day), the hour and
  minute are the corresponding remainders; this mirrors pandas
  `.dt.date` / `.dt.hour` / `.dt.minute` on a local-time datetime column.
* `sort_values` over the time column is modelled by a stable insertion sort;
  `df.tail(n)` by dropping all but the last `n` elements; `df.groupby(k)`
  with `sort=True` by aggregating each key group in ascending key order,
  with intra-group order preserved.
* Python floor division `//` is `Int.ediv` (both round toward negative
  infinity for positive divisors); `%` is `Int.emod`.
-/

namespace KhQT

/-- A dataframe row: column name to (exact) numeric value, as produced per
symbol by `xtdata.get_market_data_ex` in khQTTools.py. -/
abbrev Row := List (String × Int)

/-- Value of column `c` in row `r` (0 when the column is absent). -/
def val (r : Row) (c : String) : Int := (List.lookup c r).getD 0

/-- The `time` column of a row (minutes since epoch). -/
def timeOf (r : Row) : Int := val r "time"

/-- Calendar date of a timestamp: pandas `.dt.date` in the minutes model. -/
def dateOfT (t : Int) : Int := Int.ediv t 1440

/-- Hour-of-day of a timestamp: pandas `.dt.hour` in the minutes model. -/
def hourOfT (t : Int) : Int := Int.ediv (Int.emod t 1440) 60

/-- Minute-of-hour of a timestamp: pandas `.dt.minute` in the minutes model. -/
def minuteOfT (t : Int) : Int := Int.emod t 60

def dateOf (r : Row) : Int := dateOfT (timeOf r)

def hourOf (r : Row) : Int := hourOfT (timeOf r)

def minuteOf (r : Row) : Int := minuteOfT (timeOf r)

/-- Ordering of rows by the time column, for `df.sort_values('time')`. -/
def rowLe (a b : Row) : Prop := timeOf a ≤ timeOf b

instance : DecidableRel rowLe := fun a b => Int.decLe (timeOf a) (timeOf b)

instance : IsTotal Row rowLe := ⟨fun a b => Int.le_total (timeOf a) (timeOf b)⟩

instance : IsTrans Row rowLe := ⟨fun _ _ _ h1 h2 => Int.le_trans h1 h2⟩

/-- `df.sort_values('time')` on a list of rows. -/
def sortByTime (l : List Row) : List Row := List.insertionSort rowLe l

theorem sortByTime_perm (l : List Row) : (sortByTime l).Perm l :=
  List.perm_insertionSort rowLe l

theorem mem_sortByTime {l : List Row} {r : Row} : r ∈ sortByTime l ↔ r ∈ l :=
  (sortByTime_perm l).mem_iff

/-- `df.tail(n)`: keep the trailing `n` rows. khHistory/khKline apply the
tail only when the frame is longer than `n`, which gives the same result. -/
def tailN (n : Nat) (l : List α) : List α := l.drop (l.length - n)

theorem tailN_subset {n : Nat} {l : List α} {x : α} (h : x ∈ tailN n l) : x ∈ l :=
  List.Sublist.mem h (List.drop_sublist _ _)

theorem tailN_length (n : Nat) (l : List α) : (tailN n l).length = min n l.length := by
  simp only [tailN, List.length_drop]
  omega

theorem getLast?_drop {l : List α} {k : Nat} (h : k < l.length) :
    (l.drop k).getLast? = l.getLast? := by
  induction l generalizing k with
  | nil => simp at h
  | cons a as ih =>
    cases k with
    | zero => rfl
    | succ k =>
      simp only [List.length_cons, Nat.succ_lt_succ_iff] at h
      cases as with
      | nil => simp at h
      | cons b bs =>
        rw [List.drop_succ_cons, ih h, List.getLast?_cons_cons]

theorem tailN_getLast? {l : List α} {n : Nat} (hl : l ≠ []) (hn : 0 < n) :
    (tailN n l).getLast? = l.getLast? := by
  have hlen : 0 < l.length := List.length_pos.mpr hl
  exact getLast?_drop (by omega)

theorem getLast?_mem {l : List α} {x : α} (h : l.getLast? = some x) : x ∈ l := by
  induction l with
  | nil => simp at h
  | cons a as ih =>
    cases as with
    | nil => simp at h; simp [h]
    | cons b bs =>
      rw [List.getLast?_cons_cons] at h
      exact List.mem_cons_of_mem _ (ih h)

/-- In a list sorted by a reflexive relation, every element is related to the
last element. -/
theorem sorted_rel_getLast? {R : α → α → Prop} (hrefl : ∀ a, R a a)
    {l : List α} (hs : List.Sorted R l) {b : α} (hb : l.getLast? = some b)
    {x : α} (hx : x ∈ l) : R x b := by
  induction l with
  | nil => simp at hx
  | cons a as ih =>
    cases as with
    | nil =>
      simp at hb hx
      subst hb; subst hx; exact hrefl _
    | cons c cs =>
      rw [List.getLast?_cons_cons] at hb
      rcases List.mem_cons.mp hx with rfl | hx2
      · exact (List.sorted_cons.mp hs).1 b (getLast?_mem hb)
      · exact ih (List.sorted_cons.mp hs).2 hb hx2

/-! ## OHLCV aggregation primitive (`_aggregate_kline`) -/

/-- pandas `first` aggregation of column `c` over a group of rows. -/
def colFirst (g : List Row) (c : String) : Int :=
  match g.head? with
  | some r => val r c
  | none => 0

/-- pandas `last` aggregation of column `c` over a group of rows. -/
def colLast (g : List Row) (c : String) : Int :=
  match g.getLast? with
  | some r => val r c
  | none => 0

/-- pandas `max` aggregation of column `c` over a group of rows. -/
def colMax (g : List Row) (c : String) : Int :=
  match g with
  | [] => 0
  | r :: rs => rs.foldl (fun acc x => max acc (val x c)) (val r c)

/-- pandas `min` aggregation of column `c` over a group of rows. -/
def colMin (g : List Row) (c : String) : Int :=
  match g with
  | [] => 0
  | r :: rs => rs.foldl (fun acc x => min acc (val x c)) (val r c)

/-- pandas `sum` aggregation of column `c` over a group of rows. -/
def colSum (g : List Row) (c : String) : Int :=
  g.foldl (fun acc x => acc + val x c) 0

/-- One optional entry of the aggregation dict built by `_aggregate_kline`
(`if 'open' in fields: agg_dict['open'] = 'first'` and friends). -/
def maybeCol (b : Bool) (c : String) (v : Int) (rest : Row) : Row :=
  if b then (c, v) :: rest else rest

/-- `_aggregate_kline` applied to a single group: the output row holds
exactly the columns of the aggregation dict, in dict insertion order
(time, then open/high/low/close/volume/amount when requested).  Requested
fields outside this table are not added to the dict, hence are absent from
the aggregated output (pandas `.agg(agg_dict)` keeps only dict keys). -/
def aggregate (g : List Row) (fields : List String) : Row :=
  ("time", colLast g "time") ::
    maybeCol (decide ("open" ∈ fields)) "open" (colFirst g "open")
      (maybeCol (decide ("high" ∈ fields)) "high" (colMax g "high")
        (maybeCol (decide ("low" ∈ fields)) "low" (colMin g "low")
          (maybeCol (decide ("close" ∈ fields)) "close" (colLast g "close")
            (maybeCol (decide ("volume" ∈ fields)) "volume" (colSum g "volume")
              (maybeCol (decide ("amount" ∈ fields)) "amount" (colSum g "amount") [])))))

theorem lookup_maybeCol_ne {c' c : String} (h : c' ≠ c) (b : Bool) (v : Int) (rest : Row) :
    List.lookup c' (maybeCol b c v rest) = List.lookup c' rest := by
  unfold maybeCol
  cases b with
  | false => rfl
  | true => simp [List.lookup, beq_eq_false_iff_ne.mpr h]

theorem lookup_maybeCol_self {c : String} {b : Bool} (h : b = true) (v : Int) (rest : Row) :
    List.lookup c (maybeCol b c v rest) = some v := by
  subst h
  simp [maybeCol, List.lookup]

theorem lookup_cons_ne {c' c : String} (h : c' ≠ c) (v : Int) (rest : Row) :
    List.lookup c' ((c, v) :: rest) = List.lookup c' rest := by
  simp [List.lookup, beq_eq_false_iff_ne.mpr h]

theorem lookup_aggregate_time (g : List Row) (fields : List String) :
    List.lookup "time" (aggregate g fields) = some (colLast g "time") := by
  simp [aggregate, List.lookup]

theorem lookup_aggregate_open {fields : List String} (h : "open" ∈ fields) (g : List Row) :
    List.lookup "open" (aggregate g fields) = some (colFirst g "open") := by
  unfold aggregate
  rw [lookup_cons_ne (by decide) _ _]
  exact lookup_maybeCol_self (by simpa using h) _ _

theorem lookup_aggregate_high {fields : List String} (h : "high" ∈ fields) (g : List Row) :
    List.lookup "high" (aggregate g fields) = some (colMax g "high") := by
  unfold aggregate
  rw [lookup_cons_ne (by decide) _ _,
    lookup_maybeCol_ne (by decide) _ _ _]
  exact lookup_maybeCol_self (by simpa using h) _ _

theorem lookup_aggregate_low {fields : List String} (h : "low" ∈ fields) (g : List Row) :
    List.lookup "low" (aggregate g fields) = some (colMin g "low") := by
  unfold aggregate
  rw [lookup_cons_ne (by decide) _ _,
    lookup_maybeCol_ne (by decide) _ _ _, lookup_maybeCol_ne (by decide) _ _ _]
  exact lookup_maybeCol_self (by simpa using h) _ _

theorem lookup_aggregate_close {fields : List String} (h : "close" ∈ fields) (g : List Row) :
    List.lookup "close" (aggregate g fields) = some (colLast g "close") := by
  unfold aggregate
  rw [lookup_cons_ne (by decide) _ _,
    lookup_maybeCol_ne (by decide) _ _ _, lookup_maybeCol_ne (by decide) _ _ _,
    lookup_maybeCol_ne (by decide) _ _ _]
  exact lookup_maybeCol_self (by simpa using h) _ _

theorem lookup_aggregate_volume {fields : List String} (h : "volume" ∈ fields) (g : List Row) :
    List.lookup "volume" (aggregate g fields) = some (colSum g "volume") := by
  unfold aggregate
  rw [lookup_cons_ne (by decide) _ _,
    lookup_maybeCol_ne (by decide) _ _ _, lookup_maybeCol_ne (by decide) _ _ _,
    lookup_maybeCol_ne (by decide) _ _ _, lookup_maybeCol_ne (by decide) _ _ _]
  exact lookup_maybeCol_self (by simpa using h) _ _

theorem lookup_aggregate_amount {fields : List String} (h : "amount" ∈ fields) (g : List Row) :
    List.lookup "amount" (aggregate g fields) = some (colSum g "amount") := by
  unfold aggregate
  rw [lookup_cons_ne (by decide) _ _,
    lookup_maybeCol_ne (by decide) _ _ _, lookup_maybeCol_ne (by decide) _ _ _,
    lookup_maybeCol_ne (by decide) _ _ _, lookup_maybeCol_ne (by decide) _ _ _,
    lookup_maybeCol_ne (by decide) _ _ _]
  exact lookup_maybeCol_self (by simpa using h) _ _

theorem lookup_aggregate_other {f : String} (g : List Row) (fields : List String)
    (ht : f ≠ "time") (ho : f ≠ "open") (hh : f ≠ "high") (hl : f ≠ "low")
    (hc : f ≠ "close") (hv : f ≠ "volume") (ha : f ≠ "amount") :
    List.lookup f (aggregate g fields) = none := by
  unfold aggregate
  rw [lookup_cons_ne ht _ _,
    lookup_maybeCol_ne ho _ _ _, lookup_maybeCol_ne hh _ _ _,
    lookup_maybeCol_ne hl _ _ _, lookup_maybeCol_ne hc _ _ _,
    lookup_maybeCol_ne hv _ _ _, lookup_maybeCol_ne ha _ _ _]
  rfl

theorem colLast_eq_getLast {g : List Row} (h : g ≠ []) (c : String) :
    colLast g c = val (g.getLast h) c := by
  unfold colLast
  rw [List.getLast?_eq_getLast g h]

theorem colFirst_eq_head {g : List Row} (h : g ≠ []) (c : String) :
    colFirst g c = val (g.head h) c := by
  unfold colFirst
  rw [List.head?_eq_head]

theorem foldl_max_init_le (rs : List Row) (c : String) :
    ∀ init : Int, init ≤ rs.foldl (fun acc x => max acc (val x c)) init := by
  induction rs with
  | nil => intro init; exact le_refl _
  | cons a as ih =>
    intro init
    exact le_trans (le_max_left init (val a c)) (ih _)

theorem foldl_max_le (rs : List Row) (c : String) :
    ∀ (init : Int) (r : Row), r ∈ rs → val r c ≤ rs.foldl (fun acc x => max acc (val x c)) init := by
  induction rs with
  | nil => intro init r hr; simp at hr
  | cons a as ih =>
    intro init r hr
    rcases List.mem_cons.mp hr with rfl | hmem
    · exact le_trans (le_max_right init (val r c)) (foldl_max_init_le as c _)
    · exact ih _ r hmem

theorem foldl_max_attained (rs : List Row) (c : String) :
    ∀ init : Int, rs.foldl (fun acc x => max acc (val x c)) init = init ∨
      ∃ r ∈ rs, rs.foldl (fun acc x => max acc (val x c)) init = val r c := by
  induction rs with
  | nil => intro init; exact Or.inl rfl
  | cons a as ih =>
    intro init
    rcases ih (max init (val a c)) with h1 | ⟨r, hr, he⟩
    · rcases max_choice init (val a c) with hm | hm
      · exact Or.inl (by simp only [List.foldl_cons]; rw [h1, hm])
      · exact Or.inr ⟨a, List.mem_cons_self a as, by simp only [List.foldl_cons]; rw [h1, hm]⟩
    · exact Or.inr ⟨r, List.mem_cons_of_mem _ hr, by simpa using he⟩

theorem foldl_min_init_ge (rs : List Row) (c : String) :
    ∀ init : Int, rs.foldl (fun acc x => min acc (val x c)) init ≤ init := by
  induction rs with
  | nil => intro init; exact le_refl _
  | cons a as ih =>
    intro init
    exact le_trans (ih _) (min_le_left init (val a c))

theorem foldl_min_le (rs : List Row) (c : String) :
    ∀ (init : Int) (r : Row), r ∈ rs → rs.foldl (fun acc x => min acc (val x c)) init ≤ val r c := by
  induction rs with
  | nil => intro init r hr; simp at hr
  | cons a as ih =>
    intro init r hr
    rcases List.mem_cons.mp hr with rfl | hmem
    · exact le_trans (foldl_min_init_ge as c _) (min_le_right init (val r c))
    · exact ih _ r hmem

theorem foldl_min_attained (rs : List Row) (c : String) :
    ∀ init : Int, rs.foldl (fun acc x => min acc (val x c)) init = init ∨
      ∃ r ∈ rs, rs.foldl (fun acc x => min acc (val x c)) init = val r c := by
  induction rs with
  | nil => intro init; exact Or.inl rfl
  | cons a as ih =>
    intro init
    rcases ih (min init (val a c)) with h1 | ⟨r, hr, he⟩
    · rcases min_choice init (val a c) with hm | hm
      · exact Or.inl (by simp only [List.foldl_cons]; rw [h1, hm])
      · exact Or.inr ⟨a, List.mem_cons_self a as, by simp only [List.foldl_cons]; rw [h1, hm]⟩
    · exact Or.inr ⟨r, List.mem_cons_of_mem _ hr, by simpa using he⟩

theorem colMax_ge {g : List Row} {r : Row} (hr : r ∈ g) (c : String) :
    val r c ≤ colMax g c := by
  cases g with
  | nil => simp at hr
  | cons a as =>
    rcases List.mem_cons.mp hr with rfl | hmem
    · exact foldl_max_init_le as c _
    · exact foldl_max_le as c _ _ hmem

theorem colMax_attained {g : List Row} (h : g ≠ []) (c : String) :
    ∃ r ∈ g, colMax g c = val r c := by
  cases g with
  | nil => exact absurd rfl h
  | cons a as =>
    rcases foldl_max_attained as c (val a c) with h1 | ⟨r, hr, he⟩
    · exact ⟨a, List.mem_cons_self a as, h1⟩
    · exact ⟨r, List.mem_cons_of_mem _ hr, he⟩

theorem colMin_le {g : List Row} {r : Row} (hr : r ∈ g) (c : String) :
    colMin g c ≤ val r c := by
  cases g with
  | nil => simp at hr
  | cons a as =>
    rcases List.mem_cons.mp hr with rfl | hmem
    · exact foldl_min_init_ge as c _
    · exact foldl_min_le as c _ _ hmem

theorem colMin_attained {g : List Row} (h : g ≠ []) (c : String) :
    ∃ r ∈ g, colMin g c = val r c := by
  cases g with
  | nil => exact absurd rfl h
  | cons a as =>
    rcases foldl_min_attained as c (val a c) with h1 | ⟨r, hr, he⟩
    · exact ⟨a, List.mem_cons_self a as, h1⟩
    · exact ⟨r, List.mem_cons_of_mem _ hr, he⟩

theorem foldl_add_eq (g : List Row) (c : String) :
    ∀ init : Int, g.foldl (fun acc x => acc + val x c) init
      = init + (g.map (fun r => val r c)).sum := by
  induction g with
  | nil => intro init; simp
  | cons a as ih =>
    intro init
    simp only [List.foldl_cons, List.map_cons, List.sum_cons]
    rw [ih (init + val a c)]
    ring

theorem colSum_eq (g : List Row) (c : String) :
    colSum g c = (g.map (fun r => val r c)).sum := by
  unfold colSum
  rw [foldl_add_eq]
  ring

theorem val_aggregate_time (g : List Row) (fields : List String) :
    val (aggregate g fields) "time" = colLast g "time" := by
  unfold val; rw [lookup_aggregate_time]; rfl

theorem val_aggregate_open {fields : List String} (h : "open" ∈ fields) (g : List Row) :
    val (aggregate g fields) "open" = colFirst g "open" := by
  unfold val; rw [lookup_aggregate_open h]; rfl

theorem val_aggregate_high {fields : List String} (h : "high" ∈ fields) (g : List Row) :
    val (aggregate g fields) "high" = colMax g "high" := by
  unfold val; rw [lookup_aggregate_high h]; rfl

theorem val_aggregate_low {fields : List String} (h : "low" ∈ fields) (g : List Row) :
    val (aggregate g fields) "low" = colMin g "low" := by
  unfold val; rw [lookup_aggregate_low h]; rfl

theorem val_aggregate_close {fields : List String} (h : "close" ∈ fields) (g : List Row) :
    val (aggregate g fields) "close" = colLast g "close" := by
  unfold val; rw [lookup_aggregate_close h]; rfl

theorem val_aggregate_volume {fields : List String} (h : "volume" ∈ fields) (g : List Row) :
    val (aggregate g fields) "volume" = colSum g "volume" := by
  unfold val; rw [lookup_aggregate_volume h]; rfl

theorem val_aggregate_amount {fields : List String} (h : "amount" ∈ fields) (g : List Row) :
    val (aggregate g fields) "amount" = colSum g "amount" := by
  unfold val; rw [lookup_aggregate_amount h]; rfl

/-- The concrete two-bar group from the spec example for aggregation. -/
def exGroup : List Row :=
  [[("time", 571), ("open", 10), ("high", 12), ("low", 9), ("close", 11), ("volume", 100)],
   [("time", 572), ("open", 11), ("high", 13), ("low", 10), ("close", 12), ("volume", 200)]]

/-- Requested fields in the spec example for aggregation. -/
def exFields : List String := ["open", "high", "low", "close", "volume"]

/-- C3: for every non-empty group of bars aggregated with requested fields
including open/high/low/close/volume/amount, the single output bar has
timestamp = the last bar's timestamp, open = the first bar's open, high = the
group maximum of high, low = the group minimum of low, close = the last bar's
close, volume = the sum of volumes, amount = the sum of amounts; and the
concrete group [(o=10,h=12,l=9,c=11,v=100),(o=11,h=13,l=10,c=12,v=200)]
aggregates to (o=10,h=13,l=9,c=12,v=300). -/
theorem claim_C3_aggregate :
    (∀ (g : List Row) (fields : List String) (h : g ≠ []),
      val (aggregate g fields) "time" = timeOf (g.getLast h)
      ∧ ("open" ∈ fields → val (aggregate g fields) "open" = val (g.head h) "open")
      ∧ ("high" ∈ fields →
          (∀ r ∈ g, val r "high" ≤ val (aggregate g fields) "high")
          ∧ ∃ r ∈ g, val (aggregate g fields) "high" = val r "high")
      ∧ ("low" ∈ fields →
          (∀ r ∈ g, val (aggregate g fields) "low" ≤ val r "low")
          ∧ ∃ r ∈ g, val (aggregate g fields) "low" = val r "low")
      ∧ ("close" ∈ fields → val (aggregate g fields) "close" = val (g.getLast h) "close")
      ∧ ("volume" ∈ fields →
          val (aggregate g fields) "volume" = (g.map (fun r => val r "volume")).sum)
      ∧ ("amount" ∈ fields →
          val (aggregate g fields) "amount" = (g.map (fun r => val r "amount")).sum))
    ∧ aggregate exGroup exFields
        = [("time", 572), ("open", 10), ("high", 13), ("low", 9), ("close", 12), ("volume", 300)] := by
  constructor
  · intro g fields h
    refine ⟨?_, ?_, ?_, ?_, ?_, ?_, ?_⟩
    · rw [val_aggregate_time, colLast_eq_getLast h]; rfl
    · intro hf; rw [val_aggregate_open hf, colFirst_eq_head h]
    · intro hf
      constructor
      · intro r hr; rw [val_aggregate_high hf]; exact colMax_ge hr _
      · obtain ⟨r, hr, he⟩ := colMax_attained h "high"
        exact ⟨r, hr, by rw [val_aggregate_high hf]; exact he⟩
    · intro hf
      constructor
      · intro r hr; rw [val_aggregate_low hf]; exact colMin_le hr _
      · obtain ⟨r, hr, he⟩ := colMin_attained h "low"
        exact ⟨r, hr, by rw [val_aggregate_low hf]; exact he⟩
    · intro hf; rw [val_aggregate_close hf, colLast_eq_getLast h]
    · intro hf; rw [val_aggregate_volume hf]; exact colSum_eq g "volume"
    · intro hf; rw [val_aggregate_amount hf]; exact colSum_eq g "amount"
  · decide

/-- Witness for C3 at the spec's concrete group. -/
theorem claim_C3_witness :
    val (aggregate exGroup exFields) "time" = timeOf (exGroup.getLast (by decide))
    ∧ (∀ r ∈ exGroup, val r "high" ≤ val (aggregate exGroup exFields) "high") := by
  have h := claim_C3_aggregate.1 exGroup exFields (by decide)
  exact ⟨h.1, (h.2.2.1 (by decide)).1⟩

/-- First bar of the C6 counterexample group (carries field "settle"). -/
def c6a : Row := [("time", 1), ("close", 5), ("settle", 7)]

/-- Last bar of the C6 counterexample group (carries field "settle"). -/
def c6b : Row := [("time", 2), ("close", 6), ("settle", 8)]

/-- C6 counterexample: the requested field "settle" lies outside the rule
table and is carried by the input bars (last-bar value 8), but the aggregated
output row does not contain the field at all — `_aggregate_kline` only keeps
agg_dict keys, so the claimed "last-rule pass-through" does not happen. -/
theorem claim_C6_counterexample :
    List.lookup "settle" c6b = some 8
    ∧ "settle" ∈ ["close", "settle"]
    ∧ List.lookup "settle" (aggregate [c6a, c6b] ["close", "settle"]) = none := by
  decide

/-- C6 amended: a requested field outside the rule table
(timestamp/open/high/low/close/volume/amount) is dropped from the aggregated
output rather than passed through with a "last" rule. -/
theorem claim_C6_amended (g : List Row) (fields : List String) (f : String)
    (h : f ∉ ["time", "open", "high", "low", "close", "volume", "amount"]) :
    List.lookup f (aggregate g fields) = none := by
  simp only [List.mem_cons, not_or, List.not_mem_nil, not_false_iff, and_true] at h
  obtain ⟨ht, ho, hh, hl, hc, hv, ha⟩ := h
  exact lookup_aggregate_other g fields ht ho hh hl hc hv ha

/-- Witness for the amended C6 at the concrete counterexample group. -/
theorem claim_C6_witness :
    List.lookup "settle" (aggregate [c6a, c6b] ["close", "settle"]) = none :=
  claim_C6_amended [c6a, c6b] ["close", "settle"] "settle" (by decide)

/-! ## Session-anomaly corrector (`_process_930_data`) -/

/-- Mask for the 09:30 bar (`dt.hour == 9 and dt.minute == 30`). -/
def is930 (r : Row) : Bool := decide (hourOf r = 9) && decide (minuteOf r = 30)

/-- Mask for the 09:31 bar (`dt.hour == 9 and dt.minute == 31`). -/
def is931 (r : Row) : Bool := decide (hourOf r = 9) && decide (minuteOf r = 31)

/-- Assignment to one column of a row (`df.loc[idx, c] = v`); only columns
already present in the frame are ever assigned by `_process_930_data`. -/
def setVal (r : Row) (c : String) (v : Int) : Row :=
  r.map (fun kv => if kv.1 = c then (c, v) else kv)

theorem setVal_cons (k : String) (x : Int) (rest : Row) (c : String) (v : Int) :
    setVal ((k, x) :: rest) c v = (if k = c then (c, v) else (k, x)) :: setVal rest c v := rfl

theorem lookup_setVal_ne {c' c : String} (h : c' ≠ c) (v : Int) :
    ∀ r : Row, List.lookup c' (setVal r c v) = List.lookup c' r := by
  intro r
  induction r with
  | nil => rfl
  | cons kv rest ih =>
    obtain ⟨k, x⟩ := kv
    rw [setVal_cons]
    by_cases hk : k = c
    · subst hk
      rw [if_pos rfl, lookup_cons_ne h, lookup_cons_ne h]
      exact ih
    · rw [if_neg hk]
      by_cases hck : c' = k
      · subst hck
        simp [List.lookup]
      · rw [lookup_cons_ne hck, lookup_cons_ne hck]
        exact ih

theorem lookup_setVal_self {c : String} (v : Int) :
    ∀ r : Row, (List.lookup c r).isSome = true → List.lookup c (setVal r c v) = some v := by
  intro r
  induction r with
  | nil => intro h; simp [List.lookup] at h
  | cons kv rest ih =>
    intro h
    obtain ⟨k, x⟩ := kv
    rw [setVal_cons]
    by_cases hk : k = c
    · subst hk
      rw [if_pos rfl]
      simp [List.lookup]
    · rw [if_neg hk]
      have hck : c ≠ k := fun he => hk he.symm
      rw [lookup_cons_ne hck] at h
      rw [lookup_cons_ne hck]
      exact ih h

/-- Copy the 09:30 open into the row (when open is requested and present). -/
def fixOpen (fields : List String) (b30 r : Row) : Row :=
  if "open" ∈ fields ∧ (List.lookup "open" r).isSome
  then setVal r "open" (val b30 "open") else r

/-- Add the 09:30 volume onto the row (when volume is requested and present). -/
def fixVolume (fields : List String) (b30 r : Row) : Row :=
  if "volume" ∈ fields ∧ (List.lookup "volume" r).isSome
  then setVal r "volume" (val b30 "volume" + val r "volume") else r

/-- Add the 09:30 amount onto the row (when amount is requested and present). -/
def fixAmount (fields : List String) (b30 r : Row) : Row :=
  if "amount" ∈ fields ∧ (List.lookup "amount" r).isSome
  then setVal r "amount" (val b30 "amount" + val r "amount") else r

/-- The full merge `_process_930_data` applies to the 09:31 row. -/
def fix931 (fields : List String) (b30 r : Row) : Row :=
  fixAmount fields b30 (fixVolume fields b30 (fixOpen fields b30 r))

theorem lookup_fixOpen_ne {c : String} (h : c ≠ "open") (fields : List String) (b30 r : Row) :
    List.lookup c (fixOpen fields b30 r) = List.lookup c r := by
  unfold fixOpen
  split
  · exact lookup_setVal_ne h _ _
  · rfl

theorem lookup_fixVolume_ne {c : String} (h : c ≠ "volume") (fields : List String) (b30 r : Row) :
    List.lookup c (fixVolume fields b30 r) = List.lookup c r := by
  unfold fixVolume
  split
  · exact lookup_setVal_ne h _ _
  · rfl

theorem lookup_fixAmount_ne {c : String} (h : c ≠ "amount") (fields : List String) (b30 r : Row) :
    List.lookup c (fixAmount fields b30 r) = List.lookup c r := by
  unfold fixAmount
  split
  · exact lookup_setVal_ne h _ _
  · rfl

theorem timeOf_fix931 (fields : List String) (b30 r : Row) :
    timeOf (fix931 fields b30 r) = timeOf r := by
  unfold timeOf val fix931
  rw [lookup_fixAmount_ne (by decide), lookup_fixVolume_ne (by decide),
    lookup_fixOpen_ne (by decide)]

theorem val_fix931_open {fields : List String} (hf : "open" ∈ fields) (b30 : Row) {r : Row}
    (hr : (List.lookup "open" r).isSome = true) :
    val (fix931 fields b30 r) "open" = val b30 "open" := by
  unfold fix931 val
  rw [lookup_fixAmount_ne (by decide), lookup_fixVolume_ne (by decide)]
  unfold fixOpen
  rw [if_pos ⟨hf, hr⟩, lookup_setVal_self _ _ hr]
  rfl

theorem val_fix931_volume {fields : List String} (hf : "volume" ∈ fields) (b30 : Row) {r : Row}
    (hr : (List.lookup "volume" r).isSome = true) :
    val (fix931 fields b30 r) "volume" = val b30 "volume" + val r "volume" := by
  unfold fix931 val
  rw [lookup_fixAmount_ne (by decide)]
  unfold fixVolume
  have h1 : (List.lookup "volume" (fixOpen fields b30 r)).isSome = true := by
    rw [lookup_fixOpen_ne (by decide)]; exact hr
  rw [if_pos ⟨hf, h1⟩, lookup_setVal_self _ _ h1]
  have h2 : val (fixOpen fields b30 r) "volume" = val r "volume" := by
    unfold val; rw [lookup_fixOpen_ne (by decide)]
  rw [Option.getD_some, h2]
  rfl

theorem val_fix931_amount {fields : List String} (hf : "amount" ∈ fields) (b30 : Row) {r : Row}
    (hr : (List.lookup "amount" r).isSome = true) :
    val (fix931 fields b30 r) "amount" = val b30 "amount" + val r "amount" := by
  unfold fix931 val
  unfold fixAmount
  have h1 : (List.lookup "amount" (fixVolume fields b30 (fixOpen fields b30 r))).isSome = true := by
    rw [lookup_fixVolume_ne (by decide), lookup_fixOpen_ne (by decide)]; exact hr
  rw [if_pos ⟨hf, h1⟩, lookup_setVal_self _ _ h1]
  have h2 : val (fixVolume fields b30 (fixOpen fields b30 r)) "amount" = val r "amount" := by
    unfold val; rw [lookup_fixVolume_ne (by decide), lookup_fixOpen_ne (by decide)]
  rw [Option.getD_some, h2]
  rfl

/-- `.loc` single-label assignment at the first index matching `p`
(`data_931.index[0]` in `_process_930_data`). -/
def updateFirst (p : Row → Bool) (f : Row → Row) : List Row → List Row
  | [] => []
  | r :: rs => if p r then f r :: rs else r :: updateFirst p f rs

theorem mem_updateFirst {p : Row → Bool} {f : Row → Row} {l : List Row} {r : Row}
    (h : r ∈ updateFirst p f l) : r ∈ l ∨ ∃ b ∈ l, r = f b := by
  induction l with
  | nil => simp [updateFirst] at h
  | cons a as ih =>
    rw [updateFirst] at h
    by_cases hp : p a
    · rw [if_pos hp] at h
      rcases List.mem_cons.mp h with rfl | hmem
      · exact Or.inr ⟨a, List.mem_cons_self a as, rfl⟩
      · exact Or.inl (List.mem_cons_of_mem _ hmem)
    · rw [if_neg hp] at h
      rcases List.mem_cons.mp h with rfl | hmem
      · exact Or.inl (List.mem_cons_self _ _)
      · rcases ih hmem with h1 | ⟨b, hb, he⟩
        · exact Or.inl (List.mem_cons_of_mem _ h1)
        · exact Or.inr ⟨b, List.mem_cons_of_mem _ hb, he⟩

theorem updateFirst_append {p : Row → Bool} {f : Row → Row} {l1 : List Row}
    (h : ∀ x ∈ l1, p x = false) {b : Row} (hb : p b = true) (l2 : List Row) :
    updateFirst p f (l1 ++ b :: l2) = l1 ++ f b :: l2 := by
  induction l1 with
  | nil => simp [updateFirst, hb]
  | cons a as ih =>
    have ha := h a (List.mem_cons_self a as)
    have hstep : updateFirst p f ((a :: as) ++ b :: l2)
        = a :: updateFirst p f (as ++ b :: l2) := by
      rw [List.cons_append, updateFirst, if_neg (by simp [ha])]
    rw [hstep, ih (fun x hx => h x (List.mem_cons_of_mem _ hx)), List.cons_append]

theorem find?_eq_head?_filter (p : Row → Bool) (l : List Row) :
    l.find? p = (l.filter p).head? := by
  induction l with
  | nil => rfl
  | cons a as ih =>
    rw [List.find?_cons, List.filter_cons]
    cases h : p a with
    | true => simp only [h]; rfl
    | false => simp only [h, if_false]; exact ih

theorem filter_eq_singleton_decomp {p : Row → Bool} {l : List Row} {b : Row}
    (h : l.filter p = [b]) :
    ∃ l1 l2, l = l1 ++ b :: l2 ∧ (∀ x ∈ l1, p x = false)
      ∧ p b = true ∧ (∀ x ∈ l2, p x = false) := by
  induction l with
  | nil => simp at h
  | cons a as ih =>
    rw [List.filter_cons] at h
    by_cases hp : p a
    · rw [if_pos hp] at h
      have ha : a = b := (List.cons_eq_cons.mp h).1
      have hrest : as.filter p = [] := (List.cons_eq_cons.mp h).2
      subst ha
      refine ⟨[], as, rfl, by simp, hp, fun x hx => ?_⟩
      have h2 := List.filter_eq_nil_iff.mp hrest x hx
      simpa using h2
    · rw [if_neg hp] at h
      obtain ⟨l1, l2, he, h1, hb, h2⟩ := ih h
      refine ⟨a :: l1, l2, by rw [he, List.cons_append], fun x hx => ?_, hb, h2⟩
      rcases List.mem_cons.mp hx with rfl | hx2
      · simpa using hp
      · exact h1 x hx2

/-- One day group of `_process_930_data`: when the day has both a 09:30 and a
09:31 row, merge the (first) 09:30 row into the first 09:31 row and drop all
09:30 rows; otherwise return the day unchanged. -/
def processDay (fields : List String) (day : List Row) : List Row :=
  match day.find? is930, day.find? is931 with
  | some b30, some _ => (updateFirst is931 (fix931 fields b30) day).filter (fun r => !is930 r)
  | _, _ => day

theorem processDay_time {fields : List String} {day : List Row} {r : Row}
    (h : r ∈ processDay fields day) : ∃ x ∈ day, timeOf r = timeOf x := by
  unfold processDay at h
  split at h
  · have h2 := (List.mem_filter.mp h).1
    rcases mem_updateFirst h2 with h3 | ⟨b, hb, he⟩
    · exact ⟨r, h3, rfl⟩
    · exact ⟨b, hb, by rw [he, timeOf_fix931]⟩
  · exact ⟨r, h, rfl⟩

/-- Ascending list of the distinct dates of a frame
(`df.groupby(df['time'].dt.date)` iterates groups in ascending key order). -/
def sortedDates (l : List Row) : List Int :=
  List.insertionSort (α := Int) (fun a b => a ≤ b) (l.map dateOf).dedup

theorem mem_sortedDates {l : List Row} {d : Int} :
    d ∈ sortedDates l ↔ d ∈ l.map dateOf := by
  unfold sortedDates
  rw [(List.perm_insertionSort _ _).mem_iff, List.mem_dedup]

/-- `_process_930_data`: group the frame by date, correct each day group,
re-concatenate and sort by time.  An empty frame is returned unchanged. -/
def process930 (l : List Row) (fields : List String) : List Row :=
  if l = [] then l
  else sortByTime (((sortedDates l).map
    (fun d => processDay fields (l.filter (fun r => decide (dateOf r = d))))).flatten)

theorem mem_process930 {l : List Row} {fields : List String} {r : Row} (hl : l ≠ []) :
    r ∈ process930 l fields ↔
      ∃ d ∈ l.map dateOf,
        r ∈ processDay fields (l.filter (fun x => decide (dateOf x = d))) := by
  unfold process930
  rw [if_neg hl, mem_sortByTime, List.mem_flatten]
  constructor
  · rintro ⟨sub, hsub, hr⟩
    obtain ⟨d, hd, rfl⟩ := List.mem_map.mp hsub
    exact ⟨d, mem_sortedDates.mp hd, hr⟩
  · rintro ⟨d, hd, hr⟩
    exact ⟨_, List.mem_map_of_mem _ (mem_sortedDates.mpr hd), hr⟩

theorem processDay_date {fields : List String} {l : List Row} {d : Int} {r : Row}
    (h : r ∈ processDay fields (l.filter (fun x => decide (dateOf x = d)))) :
    dateOf r = d := by
  obtain ⟨x, hx, ht⟩ := processDay_time h
  have hd := of_decide_eq_true (List.mem_filter.mp hx).2
  rw [dateOf, ht, ← dateOf, hd]

/-- Times in a frame are preserved (as a set) by `_process_930_data`. -/
theorem process930_times {l : List Row} {fields : List String} {r : Row}
    (h : r ∈ process930 l fields) : ∃ x ∈ l, timeOf r = timeOf x := by
  by_cases hl : l = []
  · subst hl; simp [process930] at h
  · obtain ⟨d, _, hr⟩ := (mem_process930 hl).mp h
    obtain ⟨x, hx, ht⟩ := processDay_time hr
    exact ⟨x, (List.mem_filter.mp hx).1, ht⟩

theorem hourOf_fix931 (fields : List String) (b30 r : Row) :
    hourOf (fix931 fields b30 r) = hourOf r := by
  unfold hourOf
  rw [timeOf_fix931]

theorem minuteOf_fix931 (fields : List String) (b30 r : Row) :
    minuteOf (fix931 fields b30 r) = minuteOf r := by
  unfold minuteOf
  rw [timeOf_fix931]

theorem is930_fix931 (fields : List String) (b30 r : Row) :
    is930 (fix931 fields b30 r) = is930 r := by
  unfold is930
  rw [hourOf_fix931, minuteOf_fix931]

theorem is930_eq_false_of_is931 {r : Row} (h : is931 r = true) : is930 r = false := by
  simp only [is931, Bool.and_eq_true, decide_eq_true_eq] at h
  simp [is930, h.2]

/-- C7.  For every day `d` of a raw 1-minute series: when the day has (unique)
09:30 and 09:31 bars `b30`/`b31` and open/volume are requested and present,
the corrected series has no 09:30 bar on day `d`; the corrected 09:31 bar is
exactly `b31` with `b30`'s open copied in, `b30`'s volume (and amount, when
requested and present) added in, and an unchanged timestamp; it is the unique
09:31 bar of day `d` in the output; every other bar of day `d` passes through
unchanged; and when the day has no 09:31 bar the whole day (including any
09:30 bar) passes through unchanged. -/
theorem claim_C7_process930 :
    ∀ (l : List Row) (fields : List String) (d : Int) (b30 b31 : Row),
    ((l.filter (fun r => decide (dateOf r = d) && is930 r) = [b30]) →
     (l.filter (fun r => decide (dateOf r = d) && is931 r) = [b31]) →
     "open" ∈ fields → "volume" ∈ fields →
     (List.lookup "open" b31).isSome = true →
     (List.lookup "volume" b31).isSome = true →
      (∀ r ∈ process930 l fields, dateOf r = d → is930 r = false)
      ∧ fix931 fields b30 b31 ∈ process930 l fields
      ∧ timeOf (fix931 fields b30 b31) = timeOf b31
      ∧ val (fix931 fields b30 b31) "open" = val b30 "open"
      ∧ val (fix931 fields b30 b31) "volume" = val b30 "volume" + val b31 "volume"
      ∧ ("amount" ∈ fields → (List.lookup "amount" b31).isSome = true →
          val (fix931 fields b30 b31) "amount" = val b30 "amount" + val b31 "amount")
      ∧ (∀ r ∈ l, dateOf r = d → is930 r = false → is931 r = false →
          r ∈ process930 l fields)
      ∧ (∀ r ∈ process930 l fields, dateOf r = d →
          r = fix931 fields b30 b31 ∨ (r ∈ l ∧ is930 r = false))
      ∧ (∀ r ∈ process930 l fields, dateOf r = d → is931 r = true →
          r = fix931 fields b30 b31))
    ∧ ((l.filter (fun r => decide (dateOf r = d) && is931 r) = []) →
        (∀ r ∈ l, dateOf r = d → r ∈ process930 l fields)
        ∧ (∀ r ∈ process930 l fields, dateOf r = d → r ∈ l)) := by
  intro l fields d b30 b31
  have hcongr30 : l.filter (fun a => is930 a && decide (dateOf a = d))
      = l.filter (fun r => decide (dateOf r = d) && is930 r) :=
    List.filter_congr (fun x _ => Bool.and_comm (is930 x) (decide (dateOf x = d)))
  have hcongr31 : l.filter (fun a => is931 a && decide (dateOf a = d))
      = l.filter (fun r => decide (dateOf r = d) && is931 r) :=
    List.filter_congr (fun x _ => Bool.and_comm (is931 x) (decide (dateOf x = d)))
  constructor
  · intro hf30 hf31 hopen hvol ho31 hv31
    have hfilter30 : (l.filter (fun x => decide (dateOf x = d))).filter is930 = [b30] := by
      rw [List.filter_filter, hcongr30, hf30]
    have hfilter31 : (l.filter (fun x => decide (dateOf x = d))).filter is931 = [b31] := by
      rw [List.filter_filter, hcongr31, hf31]
    have find30 : (l.filter (fun x => decide (dateOf x = d))).find? is930 = some b30 := by
      rw [find?_eq_head?_filter, hfilter30]; rfl
    have find31 : (l.filter (fun x => decide (dateOf x = d))).find? is931 = some b31 := by
      rw [find?_eq_head?_filter, hfilter31]; rfl
    obtain ⟨m1, m2, hdecomp, hm1, hb31p, hm2⟩ := filter_eq_singleton_decomp hfilter31
    have hb30mem : b30 ∈ l.filter (fun r => decide (dateOf r = d) && is930 r) := by
      rw [hf30]; exact List.mem_singleton_self b30
    have hb30l : b30 ∈ l := (List.mem_filter.mp hb30mem).1
    have hb30d : dateOf b30 = d := by
      have hp := (List.mem_filter.mp hb30mem).2
      simp only [Bool.and_eq_true, decide_eq_true_eq] at hp
      exact hp.1
    have hl : l ≠ [] := List.ne_nil_of_mem hb30l
    have hdmem : d ∈ l.map dateOf := List.mem_map.mpr ⟨b30, hb30l, hb30d⟩
    have hfixnot930 : is930 (fix931 fields b30 b31) = false := by
      rw [is930_fix931]; exact is930_eq_false_of_is931 hb31p
    have hpd0 : processDay fields (l.filter (fun x => decide (dateOf x = d)))
        = (updateFirst is931 (fix931 fields b30)
            (l.filter (fun x => decide (dateOf x = d)))).filter (fun r => !is930 r) := by
      unfold processDay
      rw [find30, find31]
    have hpd : processDay fields (l.filter (fun x => decide (dateOf x = d)))
        = m1.filter (fun r => !is930 r)
          ++ fix931 fields b30 b31 :: m2.filter (fun r => !is930 r) := by
      rw [hpd0, hdecomp, updateFirst_append hm1 hb31p m2, List.filter_append,
        List.filter_cons, if_pos (by rw [hfixnot930]; rfl)]
    have hm1day : ∀ x ∈ m1, x ∈ l.filter (fun r => decide (dateOf r = d)) := by
      intro x hx; rw [hdecomp]; exact List.mem_append_left _ hx
    have hm2day : ∀ x ∈ m2, x ∈ l.filter (fun r => decide (dateOf r = d)) := by
      intro x hx; rw [hdecomp]
      exact List.mem_append_right _ (List.mem_cons_of_mem _ hx)
    refine ⟨?_, ?_, timeOf_fix931 fields b30 b31, val_fix931_open hopen b30 ho31,
      val_fix931_volume hvol b30 hv31,
      (fun ha hs => val_fix931_amount ha b30 hs), ?_, ?_, ?_⟩
    · intro r hr hrd
      obtain ⟨dd, hdd, hpdr⟩ := (mem_process930 hl).mp hr
      have hdeq : dd = d := by rw [← processDay_date hpdr, hrd]
      subst hdeq
      rw [hpd] at hpdr
      rcases List.mem_append.mp hpdr with h1 | h1
      · simpa using (List.mem_filter.mp h1).2
      · rcases List.mem_cons.mp h1 with rfl | h2
        · exact hfixnot930
        · simpa using (List.mem_filter.mp h2).2
    · refine (mem_process930 hl).mpr ⟨d, hdmem, ?_⟩
      rw [hpd]
      exact List.mem_append_right _ (List.mem_cons_self _ _)
    · intro r hrl hrd hr930 hr931
      have hrday : r ∈ l.filter (fun x => decide (dateOf x = d)) :=
        List.mem_filter.mpr ⟨hrl, decide_eq_true hrd⟩
      have hrm : r ∈ m1 ∨ r ∈ m2 := by
        rw [hdecomp] at hrday
        rcases List.mem_append.mp hrday with h1 | h1
        · exact Or.inl h1
        · rcases List.mem_cons.mp h1 with rfl | h2
          · rw [hb31p] at hr931; cases hr931
          · exact Or.inr h2
      refine (mem_process930 (List.ne_nil_of_mem hrl)).mpr ⟨d, List.mem_map.mpr ⟨r, hrl, hrd⟩, ?_⟩
      rw [hpd]
      rcases hrm with h1 | h1
      · exact List.mem_append_left _ (List.mem_filter.mpr ⟨h1, by rw [hr930]; rfl⟩)
      · exact List.mem_append_right _
          (List.mem_cons_of_mem _ (List.mem_filter.mpr ⟨h1, by rw [hr930]; rfl⟩))
    · intro r hr hrd
      obtain ⟨dd, hdd, hpdr⟩ := (mem_process930 hl).mp hr
      have hdeq : dd = d := by rw [← processDay_date hpdr, hrd]
      subst hdeq
      rw [hpd] at hpdr
      rcases List.mem_append.mp hpdr with h1 | h1
      · have hmem := (List.mem_filter.mp h1).1
        exact Or.inr ⟨(List.mem_filter.mp (hm1day r hmem)).1,
          by simpa using (List.mem_filter.mp h1).2⟩
      · rcases List.mem_cons.mp h1 with rfl | h2
        · exact Or.inl rfl
        · have hmem := (List.mem_filter.mp h2).1
          exact Or.inr ⟨(List.mem_filter.mp (hm2day r hmem)).1,
            by simpa using (List.mem_filter.mp h2).2⟩
    · intro r hr hrd hr931
      obtain ⟨dd, hdd, hpdr⟩ := (mem_process930 hl).mp hr
      have hdeq : dd = d := by rw [← processDay_date hpdr, hrd]
      subst hdeq
      rw [hpd] at hpdr
      rcases List.mem_append.mp hpdr with h1 | h1
      · have := hm1 r (List.mem_filter.mp h1).1
        rw [this] at hr931; cases hr931
      · rcases List.mem_cons.mp h1 with rfl | h2
        · rfl
        · have := hm2 r (List.mem_filter.mp h2).1
          rw [this] at hr931; cases hr931
  · intro hf31e
    have hfilter31e : (l.filter (fun x => decide (dateOf x = d))).filter is931 = [] := by
      rw [List.filter_filter, hcongr31, hf31e]
    have find31e : (l.filter (fun x => decide (dateOf x = d))).find? is931 = none := by
      rw [find?_eq_head?_filter, hfilter31e]; rfl
    have hpdB : processDay fields (l.filter (fun x => decide (dateOf x = d)))
        = l.filter (fun x => decide (dateOf x = d)) := by
      unfold processDay
      rcases h30 : (l.filter (fun x => decide (dateOf x = d))).find? is930 with _ | b
      · rw [find31e]
      · rw [find31e]
    constructor
    · intro r hrl hrd
      refine (mem_process930 (List.ne_nil_of_mem hrl)).mpr
        ⟨d, List.mem_map.mpr ⟨r, hrl, hrd⟩, ?_⟩
      rw [hpdB]
      exact List.mem_filter.mpr ⟨hrl, decide_eq_true hrd⟩
    · intro r hr hrd
      by_cases hl : l = []
      · subst hl; simp [process930] at hr
      · obtain ⟨dd, hdd, hpdr⟩ := (mem_process930 hl).mp hr
        have hdeq : dd = d := by rw [← processDay_date hpdr, hrd]
        subst hdeq
        rw [hpdB] at hpdr
        exact (List.mem_filter.mp hpdr).1

/-- 09:30 bar of the spec's anomaly-correction example (volume 500). -/
def c7b30 : Row := [("time", 570), ("open", 18), ("high", 18), ("low", 18), ("close", 18), ("volume", 500)]

/-- 09:31 bar of the spec's anomaly-correction example (open 20, volume 300). -/
def c7b31 : Row := [("time", 571), ("open", 20), ("high", 21), ("low", 19), ("close", 21), ("volume", 300)]

/-- A later ordinary bar of the same synthetic morning (10:00). -/
def c7x : Row := [("time", 600), ("open", 30), ("high", 31), ("low", 29), ("close", 30), ("volume", 50)]

/-- Fields requested in the C7 example. -/
def c7fields : List String := ["open", "high", "low", "close", "volume"]

/-- Witness for C7 at the spec's synthetic morning: corrected volume is 800,
the open is copied from the anomalous bar, the 09:30 bar is absent; with the
09:31 bar missing, the 09:30 bar passes through. -/
theorem claim_C7_witness :
    fix931 c7fields c7b30 c7b31 ∈ process930 [c7b30, c7b31, c7x] c7fields
    ∧ val (fix931 c7fields c7b30 c7b31) "volume" = val c7b30 "volume" + val c7b31 "volume"
    ∧ val c7b30 "volume" + val c7b31 "volume" = 800
    ∧ val (fix931 c7fields c7b30 c7b31) "open" = val c7b30 "open"
    ∧ (∀ r ∈ process930 [c7b30, c7b31, c7x] c7fields, dateOf r = 0 → is930 r = false)
    ∧ c7b30 ∈ process930 [c7b30, c7x] c7fields := by
  have hA := (claim_C7_process930 [c7b30, c7b31, c7x] c7fields 0 c7b30 c7b31).1
    (by decide) (by decide) (by decide) (by decide) (by decide) (by decide)
  have hB := (claim_C7_process930 [c7b30, c7x] c7fields 0 c7b30 c7b31).2 (by decide)
  exact ⟨hA.2.1, hA.2.2.2.2.1, by decide, hA.2.2.2.1, hA.1,
    hB.1 c7b30 (List.mem_cons_self _ _) (by decide)⟩

/-! ## Grouping and aggregation over keys (`df.groupby(group_id).agg`) -/

/-- Lexicographic order on (date, bucket) keys.  The source encodes keys as
strings "YYYY-MM-DD_NNN" with a zero-padded numeric suffix so that ascending
string order (used by pandas groupby with sort=True) agrees with ascending
lexicographic order on this pair for the session buckets that occur. -/
def pairLe (a b : Int × Int) : Prop := a.1 < b.1 ∨ (a.1 = b.1 ∧ a.2 ≤ b.2)

instance : DecidableRel pairLe := fun a b => by unfold pairLe; infer_instance

instance : IsTotal (Int × Int) pairLe := ⟨by
  intro a b
  rcases lt_trichotomy a.1 b.1 with h | h | h
  · exact Or.inl (Or.inl h)
  · rcases le_total a.2 b.2 with h2 | h2
    · exact Or.inl (Or.inr ⟨h, h2⟩)
    · exact Or.inr (Or.inr ⟨h.symm, h2⟩)
  · exact Or.inr (Or.inl h)⟩

instance : IsTrans (Int × Int) pairLe := ⟨by
  intro a b c hab hbc
  unfold pairLe at *
  omega⟩

theorem pairLe_refl (a : Int × Int) : pairLe a a := Or.inr ⟨rfl, le_refl _⟩

theorem pairLe_antisymm {a b : Int × Int} (h1 : pairLe a b) (h2 : pairLe b a) : a = b := by
  obtain ⟨a1, a2⟩ := a
  obtain ⟨b1, b2⟩ := b
  unfold pairLe at h1 h2
  simp only at h1 h2
  have h3 : a1 = b1 ∧ a2 = b2 := by omega
  simp [h3.1, h3.2]

/-- The distinct group keys of a frame in ascending order (pandas groupby
iterates keys ascending when sort=True, the default). -/
def usedKeys (key : Row → Int × Int) (l : List Row) : List (Int × Int) :=
  List.insertionSort pairLe (l.map key).dedup

/-- `df.groupby(key).agg(agg_dict)`: one aggregated row per distinct key,
keys ascending, each group aggregated in original row order. -/
def groupAgg (key : Row → Int × Int) (l : List Row) (fields : List String) : List Row :=
  (usedKeys key l).map (fun k => aggregate (l.filter (fun r => decide (key r = k))) fields)

theorem mem_usedKeys {key : Row → Int × Int} {l : List Row} {k : Int × Int} :
    k ∈ usedKeys key l ↔ ∃ r ∈ l, key r = k := by
  unfold usedKeys
  rw [(List.perm_insertionSort _ _).mem_iff, List.mem_dedup, List.mem_map]

theorem usedKeys_sorted (key : Row → Int × Int) (l : List Row) :
    List.Sorted pairLe (usedKeys key l) :=
  List.sorted_insertionSort _ _

/-- When `kmax` is an attained upper bound of the keys, the last aggregated
row is the aggregate of the `kmax` group. -/
theorem groupAgg_getLast {key : Row → Int × Int} {l : List Row} {kmax : Int × Int}
    (hmem : ∃ r ∈ l, key r = kmax) (hub : ∀ r ∈ l, pairLe (key r) kmax)
    (fields : List String) :
    (groupAgg key l fields).getLast?
      = some (aggregate (l.filter (fun r => decide (key r = kmax))) fields) := by
  have hkmem : kmax ∈ usedKeys key l := mem_usedKeys.mpr hmem
  have hne : usedKeys key l ≠ [] := List.ne_nil_of_mem hkmem
  have hklast : (usedKeys key l).getLast? = some ((usedKeys key l).getLast hne) :=
    List.getLast?_eq_getLast _ hne
  have h1 : pairLe ((usedKeys key l).getLast hne) kmax := by
    obtain ⟨r, hr, hk⟩ := mem_usedKeys.mp (getLast?_mem hklast)
    exact hk ▸ hub r hr
  have h2 : pairLe kmax ((usedKeys key l).getLast hne) :=
    sorted_rel_getLast? pairLe_refl (usedKeys_sorted key l) hklast hkmem
  have hkeq : (usedKeys key l).getLast hne = kmax := pairLe_antisymm h1 h2
  unfold groupAgg
  rw [List.getLast?_map, hklast, hkeq]
  rfl

/-! ## khKline minute and day routes -/

/-- Native-period route of `_get_minute_kline` (1m/5m): keep bars with
timestamp ≤ reference (live snapshot), sort ascending, trim to bar_count. -/
def minuteNative (raw : List Row) (refT : Int) (n : Nat) : List Row :=
  tailN n (sortByTime (raw.filter (fun r => decide (timeOf r ≤ refT))))

/-- Single-day route of `_get_day_kline` (1d): keep bars with date ≤ the
reference date (inclusive), sort ascending, trim to bar_count. -/
def dayKline1 (raw : List Row) (refT : Int) (n : Nat) : List Row :=
  tailN n (sortByTime (raw.filter (fun r => decide (dateOf r ≤ dateOfT refT))))

/-- Minutes since 09:31 with the 90-minute lunch break subtracted from
afternoon bars, as computed by `_get_minute_kline` / `_get_hour_kline`. -/
def msince931T (t : Int) : Int :=
  (hourOfT t - 9) * 60 + minuteOfT t - 31 - (if 13 ≤ hourOfT t then 90 else 0)

/-- (date, bucket) group key of a timestamp for a synthesized p-minute
period: bucket = floor(minutes-since-09:31 / p). -/
def minuteKey (p : Int) (t : Int) : Int × Int :=
  (dateOfT t, Int.ediv (msince931T t) p)

/-- Non-native minute route of `_get_minute_kline` (and, with p = 60*hours,
the identical `_get_hour_kline` pipeline): filter to timestamp ≤ reference,
return empty if nothing is left, otherwise sort, run the 09:30 correction,
group by (date, bucket), aggregate each group, trim to bar_count. -/
def minuteSynth (raw : List Row) (refT : Int) (n : Nat) (p : Int)
    (fields : List String) : List Row :=
  if raw.filter (fun r => decide (timeOf r ≤ refT)) = [] then []
  else tailN n (groupAgg (fun r => minuteKey p (timeOf r))
    (process930 (sortByTime (raw.filter (fun r => decide (timeOf r ≤ refT)))) fields) fields)

/-- C2: khKline windows are inclusive of the reference time (live snapshot).
The native-minute route keeps exactly the source bars with timestamp ≤
reference (before trimming) and returns only such bars; the daily route does
the same with date ≤ reference date; for synthesized periods every bar
entering the grouping has timestamp ≤ reference, and when the group of the
reference time is the (attained) maximal group, its partial aggregate —
computed over exactly the corrected sub-bars with timestamp ≤ reference that
fall in that group — is the last element of the returned sequence. -/
theorem claim_C2_khKline_inclusive :
    ∀ (raw : List Row) (refT : Int) (n : Nat) (p : Int) (fields : List String),
      (∀ r : Row, r ∈ sortByTime (raw.filter (fun x => decide (timeOf x ≤ refT)))
          ↔ r ∈ raw ∧ timeOf r ≤ refT)
      ∧ (∀ r ∈ minuteNative raw refT n, timeOf r ≤ refT)
      ∧ (∀ r : Row, r ∈ sortByTime (raw.filter (fun x => decide (dateOf x ≤ dateOfT refT)))
          ↔ r ∈ raw ∧ dateOf r ≤ dateOfT refT)
      ∧ (∀ r ∈ dayKline1 raw refT n, dateOf r ≤ dateOfT refT)
      ∧ (∀ r ∈ process930 (sortByTime (raw.filter (fun x => decide (timeOf x ≤ refT)))) fields,
          timeOf r ≤ refT)
      ∧ (0 < n →
         (∃ r ∈ process930 (sortByTime (raw.filter (fun x => decide (timeOf x ≤ refT)))) fields,
            minuteKey p (timeOf r) = minuteKey p refT) →
         (∀ r ∈ process930 (sortByTime (raw.filter (fun x => decide (timeOf x ≤ refT)))) fields,
            pairLe (minuteKey p (timeOf r)) (minuteKey p refT)) →
         (minuteSynth raw refT n p fields).getLast?
           = some (aggregate
               ((process930 (sortByTime (raw.filter (fun x => decide (timeOf x ≤ refT)))) fields).filter
                 (fun r => decide (minuteKey p (timeOf r) = minuteKey p refT)))
               fields)) := by
  intro raw refT n p fields
  have hmemfilter : ∀ r : Row,
      r ∈ sortByTime (raw.filter (fun x => decide (timeOf x ≤ refT)))
        ↔ r ∈ raw ∧ timeOf r ≤ refT := by
    intro r
    rw [mem_sortByTime, List.mem_filter, decide_eq_true_eq]
  have hmemfilterD : ∀ r : Row,
      r ∈ sortByTime (raw.filter (fun x => decide (dateOf x ≤ dateOfT refT)))
        ↔ r ∈ raw ∧ dateOf r ≤ dateOfT refT := by
    intro r
    rw [mem_sortByTime, List.mem_filter, decide_eq_true_eq]
  have hproc : ∀ r ∈ process930 (sortByTime
      (raw.filter (fun x => decide (timeOf x ≤ refT)))) fields, timeOf r ≤ refT := by
    intro r hr
    obtain ⟨x, hx, ht⟩ := process930_times hr
    rw [ht]
    exact ((hmemfilter x).mp hx).2
  refine ⟨hmemfilter, ?_, hmemfilterD, ?_, hproc, ?_⟩
  · intro r hr
    exact ((hmemfilter r).mp (tailN_subset hr)).2
  · intro r hr
    exact ((hmemfilterD r).mp (tailN_subset hr)).2
  · intro hn hex hub
    have hfne : raw.filter (fun x => decide (timeOf x ≤ refT)) ≠ [] := by
      intro he
      obtain ⟨r, hr, _⟩ := hex
      rw [he] at hr
      simp [sortByTime, List.insertionSort, process930] at hr
    unfold minuteSynth
    rw [if_neg hfne]
    have hlast := groupAgg_getLast hex hub fields
    have hgne : groupAgg (fun r => minuteKey p (timeOf r))
        (process930 (sortByTime (raw.filter (fun r => decide (timeOf r ≤ refT)))) fields)
        fields ≠ [] := by
      intro he
      rw [he] at hlast
      cases hlast
    rw [tailN_getLast? hgne hn]
    exact hlast

/-- 09:31 bar of the C2 synthesized-period example. -/
def c2r1 : Row := [("time", 571), ("open", 10), ("close", 11), ("volume", 100)]

/-- 09:32 bar of the C2 synthesized-period example. -/
def c2r2 : Row := [("time", 572), ("open", 11), ("close", 12), ("volume", 200)]

/-- Fields requested in the C2 example. -/
def c2fields : List String := ["open", "close", "volume"]

/-- Witness for C2 with a 15-minute synthesized period, reference time 09:33:
the returned last bar is the partial aggregate of the (still open) first
bucket. -/
theorem claim_C2_witness :
    (∀ r ∈ minuteNative [c2r1, c2r2] 573 5, timeOf r ≤ 573)
    ∧ (minuteSynth [c2r1, c2r2] 573 5 15 c2fields).getLast?
        = some (aggregate
            ((process930 (sortByTime
                ([c2r1, c2r2].filter (fun x => decide (timeOf x ≤ 573)))) c2fields).filter
              (fun r => decide (minuteKey 15 (timeOf r) = minuteKey 15 573)))
            c2fields) := by
  have h := claim_C2_khKline_inclusive [c2r1, c2r2] 573 5 15 c2fields
  exact ⟨h.2.1, h.2.2.2.2.2 (by decide) ⟨c2r1, by decide, by decide⟩ (by decide)⟩

/-! ## khKline multi-day route (`_get_day_kline`, period count > 1) -/

/-- `_get_trade_days_list`: every calendar day of the inclusive range that
the trading-day test accepts, scanned day by day in ascending order.  The
test is the shared `is_trade_day`; the list is computed once per call,
before the symbol loop, so every symbol of a call uses the same list. -/
def tradeDaysList (isTD : Int → Bool) (a b : Int) : List Int :=
  ((List.range (b + 1 - a).toNat).map (fun i => a + i)).filter isTD

/-- Position of a date in the year's trading-day list
(`trade_day_to_index`), when present. -/
def tradeIndex (tdl : List Int) (d : Int) : Option Nat :=
  tdl.findIdx? (fun x => x == d)

/-- Group key assigned by `get_group_id`: (year, floor(index / count)).  The
source renders it as the string "year_NNN" with NNN zero-padded, whose
ascending string order equals ascending order of this pair. -/
def dayGroupKey (tdl : List Int) (p : Nat) (year : Int) (r : Row) : Int × Int :=
  (year, Int.ofNat (((tradeIndex tdl (dateOf r)).getD 0) / p))

/-- Bars that survive the multi-day route's two filters: date ≤ reference
date, and date present in the year's trading-day list (rows with group id
None are dropped), in ascending time order. -/
def keptRows (tdl : List Int) (refT : Int) (raw : List Row) : List Row :=
  (sortByTime (raw.filter (fun r => decide (dateOf r ≤ dateOfT refT)))).filter
    (fun r => (tradeIndex tdl (dateOf r)).isSome)

/-- Multi-day route of `_get_day_kline` (count > 1): filter to date ≤
reference date, sort, drop bars whose date is not in the trading-day list,
group by (year, index/count), aggregate, trim to bar_count. -/
def multiDayKline (tdl : List Int) (p : Nat) (year : Int) (refT : Int) (n : Nat)
    (fields : List String) (raw : List Row) : List Row :=
  if raw.filter (fun r => decide (dateOf r ≤ dateOfT refT)) = [] then []
  else if keptRows tdl refT raw = [] then []
  else tailN n (groupAgg (dayGroupKey tdl p year) (keptRows tdl refT raw) fields)

/-- Day-0 bar of symbol A in the C4 example. -/
def c4rawA : List Row := [[("time", 600), ("close", 10)], [("time", 2040), ("close", 11)]]

/-- Symbol B of the C4 example has a bar on day 0 only. -/
def c4rawB : List Row := [[("time", 600), ("close", 10)]]

/-- C4 counterexample: with the shared trading-day list [0, 1] and a 2-day
period, symbol A (bars on both days) and symbol B (bar on day 0 only) both
have data in the single group, yet their aggregated bar timestamps differ
(2040 vs 600): the aggregated timestamp is each symbol's own last bar of the
group, so coincidence fails when one symbol misses the group's later day,
contradicting the claim that timestamps coincide for every group where both
have data. -/
theorem claim_C4_counterexample :
    multiDayKline (tradeDaysList (fun _ => true) 0 1) 2 2024 2040 5 ["close"] c4rawA
      = [[("time", 2040), ("close", 11)]]
    ∧ multiDayKline (tradeDaysList (fun _ => true) 0 1) 2 2024 2040 5 ["close"] c4rawB
      = [[("time", 600), ("close", 10)]]
    ∧ ((2040 : Int) ≠ 600) := by
  decide

/-- C4 (amended): the multi-day group key of a daily bar is a function only
of the bar's date position in the shared trading-day list and the period
count (key = (year, floor(index/count))), never of the symbol's own data, so
bars of any two symbols falling on the same date receive the same group and
the group keys coincide across symbols; each group's aggregated bar carries
the timestamp of that symbol's own last bar present in the group, so two
symbols' aggregated timestamps for a common group coincide exactly when
their last available bars in that group carry the same timestamp (in
particular when neither is missing bars there), not merely whenever both
have some data in the group. -/
theorem claim_C4_yearAlignment :
    ∀ (tdl : List Int) (p : Nat) (year : Int) (refT : Int) (fields : List String),
      (∀ r r' : Row, dateOf r = dateOf r' →
        dayGroupKey tdl p year r = dayGroupKey tdl p year r')
      ∧ (∀ (r : Row) (i : Nat), tradeIndex tdl (dateOf r) = some i →
          dayGroupKey tdl p year r = (year, Int.ofNat (i / p)))
      ∧ (∀ (raw : List Row) (k : Int × Int)
          (hne : (keptRows tdl refT raw).filter
            (fun r => decide (dayGroupKey tdl p year r = k)) ≠ []),
          aggregate ((keptRows tdl refT raw).filter
              (fun r => decide (dayGroupKey tdl p year r = k))) fields
            ∈ groupAgg (dayGroupKey tdl p year) (keptRows tdl refT raw) fields
          ∧ val (aggregate ((keptRows tdl refT raw).filter
              (fun r => decide (dayGroupKey tdl p year r = k))) fields) "time"
            = timeOf (((keptRows tdl refT raw).filter
              (fun r => decide (dayGroupKey tdl p year r = k))).getLast hne))
      ∧ (∀ (rawA rawB : List Row) (k : Int × Int)
          (hneA : (keptRows tdl refT rawA).filter
            (fun r => decide (dayGroupKey tdl p year r = k)) ≠ [])
          (hneB : (keptRows tdl refT rawB).filter
            (fun r => decide (dayGroupKey tdl p year r = k)) ≠ []),
          timeOf (((keptRows tdl refT rawA).filter
              (fun r => decide (dayGroupKey tdl p year r = k))).getLast hneA)
            = timeOf (((keptRows tdl refT rawB).filter
              (fun r => decide (dayGroupKey tdl p year r = k))).getLast hneB) →
          val (aggregate ((keptRows tdl refT rawA).filter
              (fun r => decide (dayGroupKey tdl p year r = k))) fields) "time"
            = val (aggregate ((keptRows tdl refT rawB).filter
              (fun r => decide (dayGroupKey tdl p year r = k))) fields) "time") := by
  intro tdl p year refT fields
  have hpart3 : ∀ (raw : List Row) (k : Int × Int)
      (hne : (keptRows tdl refT raw).filter
        (fun r => decide (dayGroupKey tdl p year r = k)) ≠ []),
      aggregate ((keptRows tdl refT raw).filter
          (fun r => decide (dayGroupKey tdl p year r = k))) fields
        ∈ groupAgg (dayGroupKey tdl p year) (keptRows tdl refT raw) fields
      ∧ val (aggregate ((keptRows tdl refT raw).filter
          (fun r => decide (dayGroupKey tdl p year r = k))) fields) "time"
        = timeOf (((keptRows tdl refT raw).filter
          (fun r => decide (dayGroupKey tdl p year r = k))).getLast hne) := by
    intro raw k hne
    have hex : ∃ r ∈ keptRows tdl refT raw, dayGroupKey tdl p year r = k := by
      obtain ⟨x, hx⟩ := List.exists_mem_of_ne_nil _ hne
      exact ⟨x, (List.mem_filter.mp hx).1, of_decide_eq_true (List.mem_filter.mp hx).2⟩
    constructor
    · unfold groupAgg
      exact List.mem_map.mpr ⟨k, mem_usedKeys.mpr hex, rfl⟩
    · rw [val_aggregate_time, colLast_eq_getLast hne]
      rfl
  refine ⟨?_, ?_, hpart3, ?_⟩
  · intro r r' h
    unfold dayGroupKey
    rw [h]
  · intro r i h
    unfold dayGroupKey
    rw [h]
    rfl
  · intro rawA rawB k hneA hneB hT
    rw [(hpart3 rawA k hneA).2, (hpart3 rawB k hneB).2, hT]

/-- Witness for the amended C4: same-date bars share a key; the single-group
aggregate of symbol A is among the grouped output rows. -/
theorem claim_C4_witness :
    dayGroupKey (tradeDaysList (fun _ => true) 0 1) 2 2024 [("time", 600), ("close", 10)]
      = dayGroupKey (tradeDaysList (fun _ => true) 0 1) 2 2024 [("time", 700), ("close", 99)]
    ∧ aggregate ((keptRows (tradeDaysList (fun _ => true) 0 1) 2040 c4rawA).filter
          (fun r => decide (dayGroupKey (tradeDaysList (fun _ => true) 0 1) 2 2024 r = (2024, 0)))) ["close"]
        ∈ groupAgg (dayGroupKey (tradeDaysList (fun _ => true) 0 1) 2 2024)
            (keptRows (tradeDaysList (fun _ => true) 0 1) 2040 c4rawA) ["close"] := by
  have h := claim_C4_yearAlignment (tradeDaysList (fun _ => true) 0 1) 2 2024 2040 ["close"]
  exact ⟨h.1 _ _ (by decide), (h.2.2.1 c4rawA (2024, 0) (by decide)).1⟩

/-! ## Point-in-time window retrieval (khHistory) -/

/-- Generic association-list head-skip for a non-matching key. -/
theorem lookup_cons_of_ne {β : Type _} {c' c : String} (h : c' ≠ c) (v : β)
    (rest : List (String × β)) :
    List.lookup c' ((c, v) :: rest) = List.lookup c' rest := by
  simp [List.lookup, beq_eq_false_iff_ne.mpr h]

/-- Periods khHistory filters by exact timestamp (`period == 'tick'` or
`period in ['1m', '5m']`); every other period string falls to khHistory's
calendar-date comparison branch. -/
def isIntradayPeriod (s : String) : Bool := s == "tick" || s == "1m" || s == "5m"

/-- `c in df.columns` in the rows model: every row binds column `c`. -/
def hasCol (rows : List Row) (c : String) : Bool :=
  rows.all (fun r => (List.lookup c r).isSome)

/-- `df[cols]` row projection: keep the named columns, in the given order. -/
def selectCols (cols : List String) (r : Row) : Row :=
  cols.filterMap (fun c => (List.lookup c r).map (fun v => (c, v)))

/-- khHistory time handling: when the frame has a time column, keep only
bars strictly before the reference (exact timestamp for tick/1m/5m, calendar
date otherwise) and sort ascending. -/
def histFiltered (period : String) (refT : Int) (rows : List Row) : List Row :=
  if hasCol rows "time"
  then sortByTime (rows.filter (fun r =>
    if isIntradayPeriod period then decide (timeOf r < refT)
    else decide (dateOf r < dateOfT refT)))
  else rows

/-- khHistory suspension handling: when requested and a volume column
exists, drop zero-volume bars. -/
def histSkipped (skip : Bool) (rows : List Row) : List Row :=
  if skip && hasCol rows "volume"
  then rows.filter (fun r => decide (0 < val r "volume"))
  else rows

/-- Per-symbol pipeline of khHistory: filter strictly before the reference,
sort, optionally drop suspended bars, keep the trailing bar_count rows,
reorder columns time-first. -/
def historySymbol (period : String) (refT : Int) (skip : Bool) (n : Nat)
    (fields : List String) (rows : List Row) : List Row :=
  (tailN n (histSkipped skip (histFiltered period refT rows))).map
    (selectCols ("time" :: fields))

/-- khHistory after the bulk source read: the empty mapping if the source
returned nothing (`if not data: return {}`); otherwise one entry per
requested symbol in input order, with an empty frame for symbols the source
lacks (absent key, None value, or empty frame). -/
def khHistoryResult (data : List (String × Option (List Row))) (codes : List String)
    (period : String) (refT : Int) (skip : Bool) (n : Nat)
    (fields : List String) : List (String × List Row) :=
  if data = [] then []
  else codes.map (fun c => (c,
    match List.lookup c data with
    | none => []
    | some none => []
    | some (some rows) =>
      if rows = [] then []
      else historySymbol period refT skip n fields rows))

theorem lookup_map_pairs {β : Type _} {g : String → β} {codes : List String}
    {c : String} {v : β}
    (h : List.lookup c (codes.map (fun x => (x, g x))) = some v) : v = g c := by
  induction codes with
  | nil => cases h
  | cons a as ih =>
    rw [List.map_cons] at h
    by_cases hc : c = a
    · subst hc
      simp [List.lookup] at h
      exact h.symm
    · rw [lookup_cons_of_ne hc] at h
      exact ih h

theorem lookup_map_pairs_mem {β : Type _} {g : String → β} {codes : List String}
    {c : String} (h : c ∈ codes) :
    List.lookup c (codes.map (fun x => (x, g x))) = some (g c) := by
  induction codes with
  | nil => cases h
  | cons a as ih =>
    rw [List.map_cons]
    by_cases hc : c = a
    · subst hc
      simp [List.lookup]
    · rw [lookup_cons_of_ne hc]
      exact ih (by
        rcases List.mem_cons.mp h with h1 | h1
        · exact absurd h1 hc
        · exact h1)

theorem histSkipped_subset {skip : Bool} {rows : List Row} {r : Row}
    (h : r ∈ histSkipped skip rows) : r ∈ rows := by
  unfold histSkipped at h
  split at h
  · exact (List.mem_filter.mp h).1
  · exact h

theorem mem_histFiltered {period : String} {refT : Int} {rows : List Row} {r : Row}
    (htime : hasCol rows "time" = true) (h : r ∈ histFiltered period refT rows) :
    r ∈ rows ∧ (if isIntradayPeriod period then decide (timeOf r < refT)
      else decide (dateOf r < dateOfT refT)) = true := by
  unfold histFiltered at h
  rw [if_pos htime, mem_sortByTime] at h
  exact List.mem_filter.mp h

theorem timeOf_selectCols {r0 : Row} (h : (List.lookup "time" r0).isSome = true)
    (cols : List String) :
    timeOf (selectCols ("time" :: cols) r0) = timeOf r0 := by
  obtain ⟨v, hv⟩ := Option.isSome_iff_exists.mp h
  unfold selectCols timeOf val
  rw [List.filterMap_cons, hv]
  simp [List.lookup, hv]

/-- C1: every bar returned by khHistory lies strictly before the reference
time — exact-timestamp comparison (timeOf r < reference) for the intraday
periods tick/1m/5m, calendar-date comparison (dateOf r < reference date) for
daily bars — given that the source frames carry the time column khHistory
always requests. -/
theorem claim_C1_khHistory_exclusive :
    ∀ (data : List (String × Option (List Row))) (codes : List String)
      (period : String) (refT : Int) (skip : Bool) (n : Nat) (fields : List String)
      (c : String) (out : List Row) (r : Row),
      (∀ c0 rows0, List.lookup c0 data = some (some rows0) → hasCol rows0 "time" = true) →
      List.lookup c (khHistoryResult data codes period refT skip n fields) = some out →
      r ∈ out →
      (isIntradayPeriod period = true → timeOf r < refT)
      ∧ (period = "1d" → dateOf r < dateOfT refT) := by
  intro data codes period refT skip n fields c out r htc hlook hr
  unfold khHistoryResult at hlook
  by_cases hd : data = []
  · rw [if_pos hd] at hlook
    cases hlook
  · rw [if_neg hd] at hlook
    have hout := lookup_map_pairs hlook
    subst hout
    cases hdat : List.lookup c data with
    | none =>
      rw [hdat] at hr
      cases hr
    | some o =>
      cases o with
      | none =>
        rw [hdat] at hr
        cases hr
      | some rows =>
        rw [hdat] at hr
        have hr' : r ∈ (if rows = [] then ([] : List Row)
            else historySymbol period refT skip n fields rows) := hr
        by_cases hrows : rows = []
        · rw [if_pos hrows] at hr'
          cases hr'
        · rw [if_neg hrows] at hr'
          have htime : hasCol rows "time" = true := htc c rows hdat
          unfold historySymbol at hr'
          obtain ⟨r0, hr0, rfl⟩ := List.mem_map.mp hr' 
          have hr1 : r0 ∈ histFiltered period refT rows :=
            histSkipped_subset (tailN_subset hr0)
          obtain ⟨hmem, hpred⟩ := mem_histFiltered htime hr1
          have hsome : (List.lookup "time" r0).isSome = true :=
            List.all_eq_true.mp htime r0 hmem

          have hteq := timeOf_selectCols hsome fields
          constructor
          · intro hip
            rw [hip, if_pos rfl, decide_eq_true_eq] at hpred
            rw [hteq]
            exact hpred
          · intro h1d
            subst h1d
            rw [if_neg (by decide), decide_eq_true_eq] at hpred
            have hdeq : dateOf (selectCols ("time" :: fields) r0) = dateOf r0 := by
              unfold dateOf
              rw [hteq]
            rw [hdeq]
            exact hpred

/-- Source frame of the C1 witness symbol. -/
def c1rows : List Row := [[("time", 100), ("close", 5)], [("time", 2000), ("close", 6)]]

/-- Source response of the C1 witness call. -/
def c1data : List (String × Option (List Row)) := [("A", some c1rows)]

/-- Witness for C1: the only bar khHistory returns for the concrete call
lies strictly before the reference minute 1000. -/
theorem claim_C1_witness :
    timeOf [("time", 100), ("close", 5)] < 1000 :=
  (claim_C1_khHistory_exclusive c1data ["A"] "1m" 1000 false 10 ["close"] "A"
    [[("time", 100), ("close", 5)]] [("time", 100), ("close", 5)]
    (by
      intro c0 rows0 h
      by_cases hc : c0 = "A"
      · subst hc
        have hv : rows0 = c1rows := by
          have h2 : List.lookup "A" c1data = some (some c1rows) := rfl
          rw [h2] at h
          exact (Option.some.inj (Option.some.inj h)).symm
        rw [hv]
        decide
      · rw [show List.lookup c0 c1data = none from by
            unfold c1data
            rw [lookup_cons_of_ne hc]
            rfl] at h
        cases h)
    (by decide) (by decide)).1 rfl

/-- Source response of the C10 witness call. -/
def c10data : List (String × Option (List Row)) := [("A", some c1rows), ("C", some [])]

/-- C10 counterexample: a valid call whose bulk source response is empty
returns the empty mapping, so the queried symbol is absent from the result
instead of mapping to an empty frame. -/
theorem claim_C10_counterexample :
    khHistoryResult [] ["000001.SZ"] "1d" 0 false 10 ["close"] = []
    ∧ List.lookup "000001.SZ"
        (khHistoryResult [] ["000001.SZ"] "1d" 0 false 10 ["close"]) = none := by
  decide

/-- C10 (amended): provided the bulk source response is non-empty, the
khHistory result has one entry per requested (distinct) symbol, in input
order, and a symbol absent from the source response — or mapped to None or
to an empty frame — maps to an empty frame rather than being omitted; when
the source returns no data at all, khHistory instead returns the empty
mapping (spec section 7d), omitting every queried symbol. -/
theorem claim_C10_khHistory_mapping :
    ∀ (data : List (String × Option (List Row))) (codes : List String)
      (period : String) (refT : Int) (skip : Bool) (n : Nat) (fields : List String),
      data ≠ [] → codes.Nodup →
      ((khHistoryResult data codes period refT skip n fields).map Prod.fst = codes)
      ∧ (∀ c ∈ codes, ∃ out,
          List.lookup c (khHistoryResult data codes period refT skip n fields) = some out)
      ∧ (∀ c ∈ codes, List.lookup c data = none →
          List.lookup c (khHistoryResult data codes period refT skip n fields) = some [])
      ∧ (∀ c ∈ codes, List.lookup c data = some none →
          List.lookup c (khHistoryResult data codes period refT skip n fields) = some [])
      ∧ (∀ c ∈ codes, List.lookup c data = some (some []) →
          List.lookup c (khHistoryResult data codes period refT skip n fields) = some []) := by
  intro data codes period refT skip n fields hd hnd
  unfold khHistoryResult
  rw [if_neg hd]
  refine ⟨?_, ?_, ?_, ?_, ?_⟩
  · clear hnd
    induction codes with
    | nil => rfl
    | cons a as ih =>
      simp only [List.map_cons]
      rw [ih]
  · intro c hc
    exact ⟨_, lookup_map_pairs_mem hc⟩
  · intro c hc hdat
    rw [lookup_map_pairs_mem hc, hdat]
  · intro c hc hdat
    rw [lookup_map_pairs_mem hc, hdat]
  · intro c hc hdat
    rw [lookup_map_pairs_mem hc, hdat]
    rfl

/-- Witness for the amended C10: both queried symbols appear in input order;
the symbol missing from the source response maps to the empty frame, and so
does the symbol whose frame is empty. -/
theorem claim_C10_witness :
    (khHistoryResult c10data ["A", "B", "C"] "1m" 1000 false 10 ["close"]).map Prod.fst
      = ["A", "B", "C"]
    ∧ List.lookup "B" (khHistoryResult c10data ["A", "B", "C"] "1m" 1000 false 10 ["close"])
      = some []
    ∧ List.lookup "C" (khHistoryResult c10data ["A", "B", "C"] "1m" 1000 false 10 ["close"])
      = some [] := by
  have h := claim_C10_khHistory_mapping c10data ["A", "B", "C"] "1m" 1000 false 10 ["close"]
    (by decide) (by decide)
  exact ⟨h.1, h.2.2.1 "B" (by decide) (by decide), h.2.2.2.2 "C" (by decide) (by decide)⟩

/-! ## Date and time parsing (strptime model) and the trading calendar.
strptime is modelled with 1-4 digit years, 1-2 digit months/days/hours/
minutes/seconds for separated formats and fixed widths for compact formats,
with the usual range checks.  Splitting on a one-character separator is
implemented structurally so that all parsers evaluate by reduction. -/

/-- Split a character list on a separator character (the behaviour of
str.split / String.splitOn for the one-character separators used here). -/
def splitOnChar (sep : Char) : List Char → List (List Char)
  | [] => [[]]
  | c :: rest =>
    if c = sep then [] :: splitOnChar sep rest
    else
      match splitOnChar sep rest with
      | [] => [[c]]
      | g :: gs => (c :: g) :: gs

/-- Numeric value of a digit string. -/
def digitsToNat (cs : List Char) : Nat :=
  cs.foldl (fun a c => a * 10 + (c.toNat - 48)) 0

def allDigits (cs : List Char) : Bool := cs.all Char.isDigit

def lenBetween (cs : List Char) (lo hi : Nat) : Bool :=
  decide (lo ≤ cs.length) && decide (cs.length ≤ hi)

/-- Gregorian leap year. -/
def isLeap (y : Nat) : Bool := (y % 4 == 0 && y % 100 != 0) || y % 400 == 0

def daysInMonth (y m : Nat) : Nat :=
  if m = 2 then (if isLeap y then 29 else 28)
  else if m = 4 ∨ m = 6 ∨ m = 9 ∨ m = 11 then 30
  else 31

/-- Validity ranges enforced for a calendar date. -/
def validYMD (y m d : Nat) : Bool :=
  decide (1 ≤ y) && decide (y ≤ 9999) && decide (1 ≤ m) && decide (m ≤ 12)
    && decide (1 ≤ d) && decide (d ≤ daysInMonth y m)

/-- A calendar date as parsed from text. -/
abbrev YMD := Nat × Nat × Nat

/-- Days since 0000-03-01 by the standard civil-calendar formula; used only
through `weekdayYMD`. -/
def daysFromCivil (t : YMD) : Nat :=
  let y := if t.2.1 ≤ 2 then t.1 - 1 else t.1
  let era := y / 400
  let yoe := y % 400
  let mp := if 2 < t.2.1 then t.2.1 - 3 else t.2.1 + 9
  let doy := (153 * mp + 2) / 5 + (t.2.2 - 1)
  let doe := yoe * 365 + yoe / 4 - yoe / 100 + doy
  era * 146097 + doe

/-- Python date.weekday(): Monday = 0 ... Sunday = 6. -/
def weekdayYMD (t : YMD) : Nat := (daysFromCivil t + 2) % 7

/-- strptime with a separated date pattern (%Y-%m-%d or %Y/%m/%d). -/
def parseSepDate (sep : Char) (s : String) : Option YMD :=
  match splitOnChar sep s.data with
  | [a, b, c] =>
    if allDigits a && allDigits b && allDigits c
        && lenBetween a 1 4 && lenBetween b 1 2 && lenBetween c 1 2 then
      if validYMD (digitsToNat a) (digitsToNat b) (digitsToNat c)
      then some (digitsToNat a, digitsToNat b, digitsToNat c)
      else none
    else none
  | _ => none

/-- strptime "%Y%m%d": exactly eight digits split 4-2-2, range-checked. -/
def parseCompactDate (s : String) : Option YMD :=
  if decide (s.data.length = 8) && allDigits s.data then
    if validYMD (digitsToNat (s.data.take 4)) (digitsToNat ((s.data.drop 4).take 2))
        (digitsToNat (s.data.drop 6))
    then some (digitsToNat (s.data.take 4), digitsToNat ((s.data.drop 4).take 2),
        digitsToNat (s.data.drop 6))
    else none
  else none

/-- Format dispatch of is_trade_day's main try-block: a dashed string of
length 10 is parsed only as %Y-%m-%d, an 8-digit string only as %Y%m%d,
anything else is tried against %Y-%m-%d, %Y%m%d, %Y/%m/%d in turn; `none`
models the ValueError that falls through to the except-block. -/
def parseMainDate (s : String) : Option YMD :=
  if s.data.contains '-' && decide (s.length = 10) then parseSepDate '-' s
  else if allDigits s.data && decide (s.length = 8) then parseCompactDate s
  else
    match parseSepDate '-' s with
    | some d => some d
    | none =>
      match parseCompactDate s with
      | some d => some d
      | none => parseSepDate '/' s

/-- The except-block retry of is_trade_day: %Y-%m-%d then %Y%m%d. -/
def parseFallbackDate (s : String) : Option YMD :=
  match parseSepDate '-' s with
  | some d => some d
  | none => parseCompactDate s

/-- is_trade_day, with the process-wide holiday table a parameter: the main
path rejects weekends first and then holidays; the except path (reached when
the main parse raises) checks holidays first, then weekends; a string no
retry parses is treated as a trading day.  The function is total — the
source catches every exception internally. -/
def is_trade_day (holidays : List YMD) (s : String) : Bool :=
  match parseMainDate s with
  | some d =>
    if 5 ≤ weekdayYMD d then false
    else if decide (d ∈ holidays) then false
    else true
  | none =>
    match parseFallbackDate s with
    | some d =>
      if decide (d ∈ holidays) then false
      else if 5 ≤ weekdayYMD d then false
      else true
    | none => true

/-- A date string counts as parseable when the main try-block or the
except-block retry parses it. -/
def supportedDateParse (s : String) : Option YMD :=
  match parseMainDate s with
  | some d => some d
  | none => parseFallbackDate s

/-- C9: for every input string, if it parses in a supported date format then
is_trade_day returns true iff the date's weekday is Monday-Friday and the
date is not in the maintained holiday set; if no supported format parses it,
is_trade_day returns true (the permissive assume-trading-day fallback).  The
Lean function's totality models that no exception reaches the caller. -/
theorem claim_C9_is_trade_day :
    ∀ (hs : List YMD) (s : String),
      (∀ d : YMD, supportedDateParse s = some d →
        (is_trade_day hs s = true ↔ (weekdayYMD d < 5 ∧ d ∉ hs)))
      ∧ (supportedDateParse s = none → is_trade_day hs s = true) := by
  intro hs s
  unfold is_trade_day supportedDateParse
  cases hm : parseMainDate s with
  | some d0 =>
    constructor
    · intro d hd
      have hdd : d = d0 := (Option.some.inj hd).symm
      subst hdd
      show (if 5 ≤ weekdayYMD d then false
          else if decide (d ∈ hs) = true then false else true) = true
        ↔ weekdayYMD d < 5 ∧ d ∉ hs
      by_cases h1 : 5 ≤ weekdayYMD d
      · rw [if_pos h1]
        constructor
        · intro h; cases h
        · rintro ⟨hw, _⟩; omega
      · rw [if_neg h1]
        by_cases h2 : d ∈ hs
        · rw [if_pos (decide_eq_true h2)]
          constructor
          · intro h; cases h
          · rintro ⟨_, hn⟩; exact absurd h2 hn
        · rw [if_neg (by simpa using h2)]
          constructor
          · intro _; exact ⟨by omega, h2⟩
          · intro _; rfl
    · intro h; cases h
  | none =>
    cases hf : parseFallbackDate s with
    | some d1 =>
      constructor
      · intro d hd
        have hdd : d = d1 := (Option.some.inj hd).symm
        subst hdd
        show (if decide (d ∈ hs) = true then false
            else if 5 ≤ weekdayYMD d then false else true) = true
          ↔ weekdayYMD d < 5 ∧ d ∉ hs
        by_cases h2 : d ∈ hs
        · rw [if_pos (decide_eq_true h2)]
          constructor
          · intro h; cases h
          · rintro ⟨_, hn⟩; exact absurd h2 hn
        · rw [if_neg (by simpa using h2)]
          by_cases h1 : 5 ≤ weekdayYMD d
          · rw [if_pos h1]
            constructor
            · intro h; cases h
            · rintro ⟨hw, _⟩; omega
          · rw [if_neg h1]
            constructor
            · intro _; exact ⟨by omega, h2⟩
            · intro _; rfl
      · intro h; cases h
    | none =>
      exact ⟨fun d hd => absurd hd (by simp), fun _ => rfl⟩

/-- Witness for C9: a parseable weekday that is a listed holiday yields
false, a parseable non-holiday weekday yields true, and an unparseable
string yields true. -/
theorem claim_C9_witness :
    is_trade_day [(2024, 12, 25)] "2024-12-26" = true
    ∧ is_trade_day [(2024, 12, 25)] "2024-12-25" = false
    ∧ is_trade_day [(2024, 12, 25)] "hello" = true := by
  have h1 := (claim_C9_is_trade_day [(2024, 12, 25)] "2024-12-26").1 (2024, 12, 26) (by decide)
  have h2 := (claim_C9_is_trade_day [(2024, 12, 25)] "2024-12-25").1 (2024, 12, 25) (by decide)
  have h3 := (claim_C9_is_trade_day [(2024, 12, 25)] "hello").2 (by decide)
  refine ⟨h1.mpr ⟨by decide, by decide⟩, ?_, h3⟩
  cases hb : is_trade_day [(2024, 12, 25)] "2024-12-25" with
  | false => rfl
  | true => exact absurd (List.mem_singleton_self _) (h2.mp hb).2

/-! ## khKline input validation -/

/-- The regex (one or more digits, then a unit letter m/h/d) applied to the
lowercased period string, exactly as khKline's re.match does. -/
def parsePeriodRe (s : String) : Option (Nat × Char) :=
  match (s.data.map Char.toLower).reverse with
  | [] => none
  | u :: rest =>
    if decide (rest ≠ []) && allDigits rest.reverse
        && (decide (u = 'm') || decide (u = 'h') || decide (u = 'd')) then
      some (digitsToNat rest.reverse, u)
    else none

/-- The spec's period grammar, transcribed from its words: a positive
integer followed by a unit letter in {m, h, d}. -/
def specPeriodGrammar (s : String) : Bool :=
  match s.data.reverse with
  | [] => false
  | u :: rest =>
    decide (rest ≠ []) && allDigits rest.reverse && decide (0 < digitsToNat rest.reverse)
      && (decide (u = 'm') || decide (u = 'h') || decide (u = 'd'))

/-- A parsed reference datetime: date and (hour, minute, second). -/
abbrev DT6 := YMD × (Nat × Nat × Nat)

def validHMS (h m s : Nat) : Bool := decide (h ≤ 23) && decide (m ≤ 59) && decide (s ≤ 61)

/-- strptime %H:%M:%S (withSec) or %H:%M, 1-2 digit components. -/
def parseSepTime (withSec : Bool) (s : String) : Option (Nat × Nat × Nat) :=
  match withSec, splitOnChar ':' s.data with
  | true, [a, b, c] =>
    if allDigits a && allDigits b && allDigits c
        && lenBetween a 1 2 && lenBetween b 1 2 && lenBetween c 1 2 then
      if validHMS (digitsToNat a) (digitsToNat b) (digitsToNat c)
      then some (digitsToNat a, digitsToNat b, digitsToNat c)
      else none
    else none
  | false, [a, b] =>
    if allDigits a && allDigits b && lenBetween a 1 2 && lenBetween b 1 2 then
      if validHMS (digitsToNat a) (digitsToNat b) 0
      then some (digitsToNat a, digitsToNat b, 0)
      else none
    else none
  | _, _ => none

/-- strptime %H%M%S (withSec) or %H%M, fixed widths. -/
def parseCompactTime (withSec : Bool) (s : String) : Option (Nat × Nat × Nat) :=
  if withSec then
    if decide (s.data.length = 6) && allDigits s.data then
      if validHMS (digitsToNat (s.data.take 2)) (digitsToNat ((s.data.drop 2).take 2))
          (digitsToNat (s.data.drop 4))
      then some (digitsToNat (s.data.take 2), digitsToNat ((s.data.drop 2).take 2),
          digitsToNat (s.data.drop 4))
      else none
    else none
  else
    if decide (s.data.length = 4) && allDigits s.data then
      if validHMS (digitsToNat (s.data.take 2)) (digitsToNat (s.data.drop 2)) 0
      then some (digitsToNat (s.data.take 2), digitsToNat (s.data.drop 2), 0)
      else none
    else none

/-- One "date time" strptime format: the literal space separates the two
halves. -/
def parseDateTimeWith (pd : String → Option YMD)
    (pt : String → Option (Nat × Nat × Nat)) (s : String) : Option DT6 :=
  match splitOnChar ' ' s.data with
  | [ds, ts] =>
    match pd (String.mk ds), pt (String.mk ts) with
    | some d, some t => some (d, t)
    | _, _ => none
  | _ => none

/-- khKline's end_time parser: the six accepted formats tried most-precise
first, as in the source. -/
def parseKlineDT (s : String) : Option DT6 :=
  (parseDateTimeWith (parseSepDate '-') (parseSepTime true) s)
  <|> (parseDateTimeWith parseCompactDate (parseCompactTime true) s)
  <|> (parseDateTimeWith parseCompactDate (parseCompactTime false) s)
  <|> (parseDateTimeWith (parseSepDate '-') (parseSepTime false) s)
  <|> ((parseCompactDate s).map (fun d => (d, (0, 0, 0))))
  <|> ((parseSepDate '-' s).map (fun d => (d, (0, 0, 0))))

/-- Seconds truncation khKline applies (`replace(second=0, microsecond=0)`). -/
def truncSec (t : DT6) : DT6 := (t.1, (t.2.1, t.2.2.1, 0))

/-- khKline's validation prologue, in source order: empty symbol list, empty
period, non-positive bar_count, the period regex, then the end-time parse
(None meaning datetime.now()); on success it returns the parsed period and
the second-truncated reference time.  No upper bound on bar_count is
checked. -/
def khKlineValidate (symbols : List String) (period : String) (bar_count : Int)
    (end_time : Option String) : Except String (Nat × Char × Option DT6) :=
  if symbols = [] then .error "symbol_list must not be empty"
  else if period = "" then .error "period must not be empty"
  else if bar_count ≤ 0 then .error "bar_count must be positive"
  else
    match parsePeriodRe period with
    | none => .error "unsupported period format"
    | some pr =>
      match end_time with
      | none => .ok (pr.1, pr.2, none)
      | some s =>
        match parseKlineDT s with
        | none => .error "cannot parse time format"
        | some t => .ok (pr.1, pr.2, some (truncSec t))

/-- C5: khKline's own docstring caps bar_count at 240, but the validation
accepts bar_count = 300 (only positivity is checked — no 240 bound exists in
the code), and the native-minute route then returns 300 bars when 300 source
bars are available. -/
theorem claim_C5_no_bar_cap :
    khKlineValidate ["000001.SZ"] "1m" 300 none = .ok (1, 'm', none)
    ∧ (minuteNative ((List.range 300).map (fun i : Nat => [("time", (i : Int))]))
        1000000 300).length = 300
    ∧ 240 < 300 := by
  refine ⟨rfl, ?_, by decide⟩
  have hfil : ((List.range 300).map (fun i : Nat => [("time", (i : Int))])).filter
      (fun r => decide (timeOf r ≤ 1000000))
      = (List.range 300).map (fun i : Nat => [("time", (i : Int))]) := by
    apply List.filter_eq_self.mpr
    intro a ha
    obtain ⟨i, hi, rfl⟩ := List.mem_map.mp ha
    have hle : (i : Int) ≤ 1000000 := by
      have := List.mem_range.mp hi
      omega
    simpa [timeOf, val, List.lookup] using hle
  unfold minuteNative
  rw [hfil, tailN_length, (sortByTime_perm _).length_eq, List.length_map, List.length_range]
  rfl

/-- C8 counterexample: "0m" does not match the spec's period grammar (its
integer part, 0, is not positive), yet khKline's validation accepts it — the
period regex admits a zero count — so not every grammar-violating period
string raises a validation error. -/
theorem claim_C8_counterexample :
    specPeriodGrammar "0m" = false
    ∧ khKlineValidate ["000001.SZ"] "0m" 10 none = .ok (0, 'm', none) := by
  exact ⟨rfl, rfl⟩

/-- C8 (amended): each input-validation failure raises immediately and is
never silently defaulted: an empty symbol list, an empty period, a
non-positive bar_count, a reference-time string no accepted format parses,
and every period string rejected by the regex (digits then m/h/d) over the
lowercased text — in particular "3x", "m5" and "" all raise.  (Amendment:
the regex admits a zero digit count such as "0m", which the spec's
positive-integer grammar excludes.) -/
theorem claim_C8_validation :
    (∀ (p : String) (n : Int) (t : Option String),
      khKlineValidate [] p n t = .error "symbol_list must not be empty")
    ∧ (∀ (s : List String) (n : Int) (t : Option String), s ≠ [] →
      khKlineValidate s "" n t = .error "period must not be empty")
    ∧ (∀ (s : List String) (p : String) (n : Int) (t : Option String),
      s ≠ [] → p ≠ "" → n ≤ 0 →
      khKlineValidate s p n t = .error "bar_count must be positive")
    ∧ (∀ (s : List String) (p : String) (n : Int) (t : Option String),
      s ≠ [] → p ≠ "" → 0 < n → parsePeriodRe p = none →
      khKlineValidate s p n t = .error "unsupported period format")
    ∧ (∀ (s : List String) (p : String) (n : Int) (ts : String) (pr : Nat × Char),
      s ≠ [] → p ≠ "" → 0 < n → parsePeriodRe p = some pr → parseKlineDT ts = none →
      khKlineValidate s p n (some ts) = .error "cannot parse time format")
    ∧ parsePeriodRe "3x" = none
    ∧ parsePeriodRe "m5" = none
    ∧ khKlineValidate ["A"] "3x" 1 none = .error "unsupported period format"
    ∧ khKlineValidate ["A"] "m5" 1 none = .error "unsupported period format"
    ∧ khKlineValidate ["A"] "" 1 none = .error "period must not be empty" := by
  refine ⟨?_, ?_, ?_, ?_, ?_, rfl, rfl, rfl, rfl, rfl⟩
  · intro p n t
    unfold khKlineValidate
    rw [if_pos rfl]
  · intro s n t hs
    unfold khKlineValidate
    rw [if_neg hs, if_pos rfl]
  · intro s p n t hs hp hn
    unfold khKlineValidate
    rw [if_neg hs, if_neg hp, if_pos hn]
  · intro s p n t hs hp hn hre
    unfold khKlineValidate
    rw [if_neg hs, if_neg hp, if_neg (by omega), hre]
  · intro s p n ts pr hs hp hn hre ht
    unfold khKlineValidate
    rw [if_neg hs, if_neg hp, if_neg (by omega), hre]
    show (match parseKlineDT ts with
      | none => (Except.error "cannot parse time format" : Except String (Nat × Char × Option DT6))
      | some t => Except.ok (pr.1, pr.2, some (truncSec t)))
      = Except.error "cannot parse time format"
    rw [ht]

/-- Witness for the amended C8: an unparseable reference time raises with a
well-formed period, and a non-positive bar_count raises. -/
theorem claim_C8_witness :
    khKlineValidate ["A"] "1m" 1 (some "not-a-time") = .error "cannot parse time format"
    ∧ khKlineValidate ["A"] "5x" 0 none = .error "bar_count must be positive" := by
  have h := claim_C8_validation
  exact ⟨h.2.2.2.2.1 ["A"] "1m" 1 "not-a-time" (1, 'm') (by decide) (by decide) (by decide)
      (by decide) (by decide),
    h.2.2.1 ["A"] "5x" 0 none (by decide) (by decide) (by decide)⟩

end KhQT
